import Mathlib

/-!
Verification of the `react-text-editor` HTML export/import converter.

The document model, the configuration table and the converter pipelines are
embedded shallowly.  The `Document` component is translated from
`src/src/components/custom/document.js`.  The export and import pipelines
(`convertToHTML`, `convertFromHTML` and their internals) are not shipped in
`src/` — only their test suite is — so they are modelled from the spec
(§4.1–§4.5) and pinned to the concrete inputs/outputs the in-repo tests
exercise.  HTML is represented as a node tree; the external HTML parser
collaborator (spec §3) is identified with the tree constructors, and the
string form is obtained by the two serializers below (React static markup
vs. DOM `innerHTML` normalization).
-/

namespace TextEditor

/-- Entity payload data: the optional fields the recognized kinds use
(`src`, `name`, `url`, `caption`), the external-link marker consulted by
link rendering, and the row/cell data of table entities. -/
structure EntityData where
  src : Option String := none
  name : Option String := none
  url : Option String := none
  caption : Option String := none
  isExternal : Bool := false
  rows : List (List String) := []
  deriving DecidableEq, Repr

/-- An entity: a kind id (duck-typed string, as in the JS source) plus data. -/
structure Entity where
  etype : String
  data : EntityData
  deriving DecidableEq, Repr

/-- An inline style range of a block (spec §3). -/
structure StyleRange where
  style : String
  offset : Nat
  length : Nat
  deriving DecidableEq, Repr

/-- An entity range of a block (spec §3). -/
structure EntityRange where
  key : Nat
  offset : Nat
  length : Nat
  deriving DecidableEq, Repr

/-- One block of the document model (spec §3).  Entity keys are indices
into the entity list playing the role of the `entityMap`. -/
structure RawBlock where
  btype : String
  depth : Nat := 0
  text : String
  inlineStyleRanges : List StyleRange := []
  entityRanges : List EntityRange := []
  deriving DecidableEq, Repr

/-- One configuration entry: stable kind id and css class (spec §3). -/
structure KindEntry where
  id : String
  cssClass : String
  deriving DecidableEq, Repr

/-- The configuration table supplied by the toolbar collaborator:
entries for the six entity kinds and the three alignment styles. -/
structure Config where
  link : KindEntry
  photo : KindEntry
  file : KindEntry
  divider : KindEntry
  rich : KindEntry
  table : KindEntry
  alignLeft : KindEntry
  alignCenter : KindEntry
  alignRight : KindEntry
  deriving DecidableEq, Repr

/-- Modelled from the spec: the default toolbar configuration
(`TOOLBAR_DEFAULTS`, whose constants file is not shipped in `src/`).
Ids are stable distinct strings; the `file` kind's css class is
`document`, as the in-repo test output shows. -/
def TOOLBAR_DEFAULTS : Config where
  link := { id := "link", cssClass := "link" }
  photo := { id := "photo", cssClass := "photo" }
  file := { id := "file", cssClass := "document" }
  divider := { id := "divider", cssClass := "divider" }
  rich := { id := "rich", cssClass := "rich" }
  table := { id := "table", cssClass := "table" }
  alignLeft := { id := "align-left", cssClass := "align-left" }
  alignCenter := { id := "align-center", cssClass := "align-center" }
  alignRight := { id := "align-right", cssClass := "align-right" }

/-- The six entity-kind ids of a configuration are pairwise distinct
(spec §3 invariant: ids unique across the entity namespace). -/
def Config.entityIdsDistinct (cfg : Config) : Prop :=
  cfg.link.id ≠ cfg.photo.id ∧ cfg.link.id ≠ cfg.file.id ∧
  cfg.link.id ≠ cfg.divider.id ∧ cfg.link.id ≠ cfg.rich.id ∧
  cfg.link.id ≠ cfg.table.id ∧ cfg.photo.id ≠ cfg.file.id ∧
  cfg.photo.id ≠ cfg.divider.id ∧ cfg.photo.id ≠ cfg.rich.id ∧
  cfg.photo.id ≠ cfg.table.id ∧ cfg.file.id ≠ cfg.divider.id ∧
  cfg.file.id ≠ cfg.rich.id ∧ cfg.file.id ≠ cfg.table.id ∧
  cfg.divider.id ≠ cfg.rich.id ∧ cfg.divider.id ≠ cfg.table.id ∧
  cfg.rich.id ≠ cfg.table.id

/-- HTML node tree (spec §3, "intermediate HTML tree"): element nodes with
tag, attribute list and children, and raw text nodes. -/
inductive Html where
  | text : String → Html
  | element : String → List (String × String) → List Html → Html
  deriving Repr

/-- Void tags appearing in the converter's output vocabulary. -/
def isVoidTag (t : String) : Bool :=
  t == "img" || t == "br" || t == "hr"

/-- Serialize an attribute list as ` name="value"` pairs in order. -/
def renderAttrs (attrs : List (String × String)) : String :=
  attrs.foldl (fun acc p => acc ++ " " ++ p.1 ++ "=\"" ++ p.2 ++ "\"") ""

mutual

/-- React `renderToStaticMarkup` serialization: childless void elements
are self-closing (`<hr/>`, `<img .../>`). -/
def renderStatic : Html → String
  | .text s => s
  | .element t a cs =>
    if isVoidTag t && cs.isEmpty then "<" ++ t ++ renderAttrs a ++ "/>"
    else "<" ++ t ++ renderAttrs a ++ ">" ++ renderStaticList cs ++ "</" ++ t ++ ">"

/-- Serialize a list of sibling nodes, React style. -/
def renderStaticList : List Html → String
  | [] => ""
  | c :: cs => renderStatic c ++ renderStaticList cs

end

mutual

/-- DOM `innerHTML` serialization, as produced after the cleanup pass goes
through the DOM: void elements have no closing slash (`<br>`, `<img ...>`). -/
def renderDom : Html → String
  | .text s => s
  | .element t a cs =>
    if isVoidTag t then "<" ++ t ++ renderAttrs a ++ ">"
    else "<" ++ t ++ renderAttrs a ++ ">" ++ renderDomList cs ++ "</" ++ t ++ ">"

/-- Serialize a list of sibling nodes, DOM style. -/
def renderDomList : List Html → String
  | [] => ""
  | c :: cs => renderDom c ++ renderDomList cs

end

/-! ## The `Document` component (from `src/src/components/custom/document.js`) -/

/-- The nested `file` object the component reads `src`/`name` from. -/
structure FileObj where
  src : String
  name : String
  deriving DecidableEq, Repr

/-- The bag of fields `Document` destructures:
`const \x7b file, src, name, caption \x7d = props.blockProps || props`. -/
structure DocBag where
  file : Option FileObj := none
  src : Option String := none
  name : Option String := none
  caption : Option String := none
  deriving DecidableEq, Repr

/-- Props of the `Document` component: an optional `blockProps` bag or the
top-level fields themselves. -/
structure DocProps where
  blockProps : Option DocBag := none
  own : DocBag := {}
  deriving DecidableEq, Repr

/-- JS truthiness of an optional string (absent and `""` are falsy). -/
def truthy : Option String → Bool
  | none => false
  | some s => !(s == "")

/-- The `Document` renderer, translated from the source component.
`none` models the TypeError raised when `file` is absent (the component
dereferences `file.src` unconditionally). -/
def Document (props : DocProps) : Option Html :=
  let bag := props.blockProps.getD props.own
  match bag.file with
  | none => none
  | some f =>
    let blockClass :=
      if truthy bag.caption then "content-editor__custom-block document with-caption"
      else "content-editor__custom-block document"
    let anchor := Html.element "a"
      [("class", "file-name"), ("href", f.src), ("download", f.name)]
      [Html.text f.name]
    let kids :=
      if truthy bag.caption then
        [anchor, Html.element "figcaption" [("class", "caption")]
          [Html.text (bag.caption.getD "")]]
      else [anchor]
    some (Html.element "figure" [("class", blockClass)] kids)

/-! ## Export: inline style converter (spec §4.1) -/

/-- A block-alignment span: `display:block;text-align:<value>;`. -/
def alignSpan (v : String) : Html :=
  Html.element "span" [("style", "display:block;text-align:" ++ v ++ ";")] []

/-- Modelled from the spec: `convertInline` (export internals, not shipped
in `src/`).  Alignment styles render as block-level alignment spans;
unknown style ids fail (`UnrecognizedStyleError` → `none`). -/
def convertInline (cfg : Config) (styleId : String) : Option Html :=
  if styleId == cfg.alignLeft.id then some (alignSpan "left")
  else if styleId == cfg.alignCenter.id then some (alignSpan "center")
  else if styleId == cfg.alignRight.id then some (alignSpan "right")
  else none

/-! ## Export: entity converter (spec §4.2) -/

/-- The shared wrapper class of custom-block figures. -/
def customBlockClass (c : String) : String :=
  "content-editor__custom-block " ++ c

/-- Modelled from the spec: `convertEntity` (export internals, not shipped
in `src/`).  Dispatches on the entity kind id: `divider` is a bare `<hr/>`,
`link` a bare `<a>`, the rest a `<figure>` wrapper around kind markup; the
`file` kind renders through the `Document` component.  Missing required
data or an unknown kind fails (`none`). -/
def convertEntity (cfg : Config) (e : Entity) : Option Html :=
  if e.etype == cfg.link.id then
    some (Html.element "a"
      [("class", customBlockClass cfg.link.cssClass),
       ("href", e.data.url.getD ""),
       ("target", if e.data.isExternal then "_blank" else "_self"),
       ("rel", if e.data.isExternal then "noopener" else "")] [])
  else if e.etype == cfg.divider.id then
    some (Html.element "hr" [] [])
  else if e.etype == cfg.photo.id then
    e.data.src.map fun s =>
      Html.element "figure" [("class", customBlockClass cfg.photo.cssClass)]
        [Html.element "img" [("src", s)] []]
  else if e.etype == cfg.file.id then
    match e.data.src, e.data.name with
    | some s, some n =>
      Document { own := { file := some { src := s, name := n }, caption := e.data.caption } }
    | _, _ => none
  else if e.etype == cfg.rich.id then
    e.data.src.map fun s =>
      Html.element "figure" [("class", customBlockClass cfg.rich.cssClass)]
        [Html.element "div" [("class", "rich-media-wrapper")]
          [Html.element "iframe"
            [("src", s), ("frameborder", "0"), ("allowfullscreen", "")] []]]
  else if e.etype == cfg.table.id then
    some (Html.element "figure" [("class", customBlockClass cfg.table.cssClass)]
      [Html.element "table" []
        (e.data.rows.map fun r =>
          Html.element "tr" [] (r.map fun c => Html.element "td" [] [Html.text c]))])
  else none

/-! ## Export: block converter (spec §4.3) -/

/-- A block the blank-line folding rule looks at: `unstyled` with empty text. -/
def emptyU (b : RawBlock) : Bool :=
  b.btype == "unstyled" && b.text == ""

/-- Style ids active at character position `i` of a block's text. -/
def activeAt (rs : List StyleRange) (i : Nat) : List String :=
  rs.filterMap fun r =>
    if r.offset ≤ i ∧ i < r.offset + r.length then some r.style else none

/-- Group the characters of a block's text into maximal runs on which the
active style set is constant (range-stack nesting, spec §4.3). -/
def groupRuns (rs : List StyleRange) : Nat → List Char → List (List String × List Char)
  | _, [] => []
  | i, c :: cs =>
    match groupRuns rs (i + 1) cs with
    | [] => [(activeAt rs i, [c])]
    | (g, s) :: t =>
      if g = activeAt rs i then (g, c :: s) :: t
      else (activeAt rs i, [c]) :: (g, s) :: t

/-- Nest the §4.1 style wrappers around a text run, innermost text last. -/
def wrapSpans (cfg : Config) : List String → String → Option Html
  | [], s => some (Html.text s)
  | st :: sts, s => do
    let inner ← wrapSpans cfg sts s
    match convertInline cfg st with
    | some (Html.element t a _) => some (Html.element t a [inner])
    | _ => none

/-- Sequence a fallible map over a list (export fails if any element does). -/
def optionMap (f : α → Option β) : List α → Option (List β)
  | [] => some []
  | a :: as => do
    let b ← f a
    let bs ← optionMap f as
    some (b :: bs)

/-- The constant-style runs of a character segment starting at text
position `i`, each wrapped in its nested §4.1 spans. -/
def styledRuns (cfg : Config) (rs : List StyleRange) (i : Nat)
    (g : List Char) : Option (List Html) :=
  optionMap (fun gs => wrapSpans cfg gs.1 (String.mk gs.2)) (groupRuns rs i g)

/-- The §4.2 markup of an entity, spliced in place with the covered
(style-wrapped) text as its children (spec §4.3: "splicing in §4.2 markup
at every entity-range position"). -/
def spliceEntity (cfg : Config) (e : Entity) (inner : List Html) : Option Html :=
  match convertEntity cfg e with
  | some (Html.element t a _) => some (Html.element t a inner)
  | _ => none

/-- Modelled from the spec: the inline content of a non-atomic block
(spec §4.3) — walk the text left to right, wrapping each constant-style
run in §4.1 spans and splicing the §4.2 markup of each entity range in
place around its covered text. -/
def inlineSegs (cfg : Config) (em : List Entity) (rs : List StyleRange)
    (cs : List Char) (pos : Nat) : List EntityRange → Option (List Html)
  | [] => styledRuns cfg rs pos cs
  | r :: rest => do
    let gap ← styledRuns cfg rs pos (cs.take (r.offset - pos))
    let cov ← styledRuns cfg rs r.offset ((cs.drop (r.offset - pos)).take r.length)
    let e ← em[r.key]?
    let anchor ← spliceEntity cfg e cov
    let tail ← inlineSegs cfg em rs ((cs.drop (r.offset - pos)).drop r.length)
      (r.offset + r.length) rest
    some (gap ++ (anchor :: tail))

/-- The inline children of a non-atomic block. -/
def inlineChildren (cfg : Config) (em : List Entity) (b : RawBlock) :
    Option (List Html) :=
  inlineSegs cfg em b.inlineStyleRanges b.text.data 0 b.entityRanges

/-- Css class of a recognized entity kind id (lookup in the table). -/
def cssClassOf (cfg : Config) (id : String) : Option String :=
  if id == cfg.link.id then some cfg.link.cssClass
  else if id == cfg.photo.id then some cfg.photo.cssClass
  else if id == cfg.file.id then some cfg.file.cssClass
  else if id == cfg.divider.id then some cfg.divider.cssClass
  else if id == cfg.rich.id then some cfg.rich.cssClass
  else if id == cfg.table.id then some cfg.table.cssClass
  else none

/-- Modelled from the spec: export of one block (spec §4.3).  `unstyled`
maps to `<p>` with the styled runs inside; `atomic` to an outer
`<figure class="atomic <kind>-block">` wrapping the §4.2 entity markup. -/
def exportBlockTree (cfg : Config) (em : List Entity) (b : RawBlock) : Option Html :=
  if b.btype == "unstyled" then
    (inlineChildren cfg em b).map fun cs => Html.element "p" [] cs
  else if b.btype == "atomic" then
    match b.entityRanges with
    | [r] => do
      let e ← em[r.key]?
      let m ← convertEntity cfg e
      let c ← cssClassOf cfg e.etype
      some (Html.element "figure" [("class", "atomic " ++ c ++ "-block")] [m])
    | _ => none
  else none

/-- The single empty paragraph a run of blank lines starts with. -/
def pTag : Html := Html.element "p" [] []

/-- The `<br>` each further blank line of a run folds to. -/
def brTag : Html := Html.element "br" [] []

/-- Modelled from the spec: the block iteration with the blank-line rule
(spec §4.3).  The flag records whether the previous block was an empty
`unstyled` block. -/
def exportGo (cfg : Config) (em : List Entity) : Bool → List RawBlock → Option (List Html)
  | _, [] => some []
  | prev, b :: bs =>
    if emptyU b then
      (exportGo cfg em true bs).map fun ts => (if prev then brTag else pTag) :: ts
    else do
      let t ← exportBlockTree cfg em b
      let ts ← exportGo cfg em false bs
      some (t :: ts)

/-- Export the whole document model to a list of top-level HTML nodes. -/
def exportTrees (cfg : Config) (em : List Entity) (blocks : List RawBlock) :
    Option (List Html) :=
  exportGo cfg em false blocks

/-! ## Export: cleanup pass (spec §4.3, "cleanup pass") -/

/-- Whether a node is a `<figure>` element. -/
def isFigureNode : Html → Bool
  | .element t _ _ => t == "figure"
  | _ => false

/-- Whether a node is a raw text node. -/
def isTextNode : Html → Bool
  | .text _ => true
  | _ => false

mutual

/-- Modelled from the spec: the cleanup pass (`cleanHTML`, not shipped in
`src/`).  Inside a `<figure>` that contains a nested `<figure>`, every raw
text sibling of the nested figure is stripped; everything else is kept. -/
def cleanNode : Html → Html
  | .text s => .text s
  | .element t a cs =>
    let cs' := cleanList cs
    if t == "figure" && cs'.any isFigureNode then
      Html.element t a (cs'.filter fun c => !isTextNode c)
    else Html.element t a cs'

/-- Cleanup over a list of sibling nodes. -/
def cleanList : List Html → List Html
  | [] => []
  | c :: cs => cleanNode c :: cleanList cs

end

/-- Modelled from the spec: `convertToHTML` — export the model, run the
cleanup pass, and serialize through the DOM. -/
def convertToHTML (cfg : Config) (blocks : List RawBlock) (em : List Entity) :
    Option String :=
  (exportTrees cfg em blocks).map fun ts => renderDomList (cleanList ts)

/-! ## Import: node classifier (spec §4.4) -/

/-- Attribute lookup on an attribute list. -/
def getAttr (attrs : List (String × String)) (n : String) : Option String :=
  (attrs.find? fun p => p.1 == n).map (·.2)

/-- Attributes of a node (text nodes have none). -/
def attrsOf : Html → List (String × String)
  | .element _ a _ => a
  | .text _ => []

/-- Split a character list on a separator character (every separator
starts a new group, like `String.splitOn` with a one-character pattern). -/
def splitOnChar (sep : Char) : List Char → List (List Char)
  | [] => [[]]
  | c :: rest =>
    if c = sep then [] :: splitOnChar sep rest
    else
      match splitOnChar sep rest with
      | [] => [[c]]
      | g :: gs => (c :: g) :: gs

/-- Strip leading and trailing spaces from a character list. -/
def trimChars (cs : List Char) : List Char :=
  ((cs.dropWhile (· = ' ')).reverse.dropWhile (· = ' ')).reverse

/-- A class attribute value split into whitespace-separated tokens. -/
def classTokenList (s : String) : List String :=
  ((splitOnChar ' ' s.data).map String.mk).filter (· ≠ "")

/-- The class attribute of a node split into tokens. -/
def classTokens (node : Html) : List String :=
  classTokenList ((getAttr (attrsOf node) "class").getD "")

/-- The parsed `style` attribute: `prop:value` declarations split on `;`. -/
def styleDecls (node : Html) : List (String × String) :=
  (splitOnChar ';' ((getAttr (attrsOf node) "style").getD "").data).filterMap fun d =>
    match splitOnChar ':' d with
    | [p, v] => some (String.mk (trimChars p), String.mk (trimChars v))
    | _ => none

/-- Lookup of one css declaration on a node's `style` attribute. -/
def getStyleDecl (node : Html) (p : String) : Option String :=
  ((styleDecls node).find? fun q => q.1 == p).map (·.2)

/-- Modelled from the spec: `convertToBlock` (import internals, not shipped
in `src/`).  Any `<figure>` is an `atomic` block, `<p>` an `unstyled` one;
`<table>` (and everything else) yields no block. -/
def convertToBlock (tag : String) (_node : Html) : Option String :=
  if tag == "figure" then some "atomic"
  else if tag == "p" then some "unstyled"
  else none

/-- Add a style id to the running style set (an ordered set: adding an
already-present id is a no-op, new ids append). -/
def addStyle (cur : List String) (s : String) : List String :=
  if s ∈ cur then cur else cur ++ [s]

/-- Map a css `text-align` value to the recognized alignment style id. -/
def alignIdOf (cfg : Config) (v : String) : Option String :=
  if v == "left" then some cfg.alignLeft.id
  else if v == "center" then some cfg.alignCenter.id
  else if v == "right" then some cfg.alignRight.id
  else none

/-- Modelled from the spec: `convertToInline` (import internals, not
shipped in `src/`).  An element carrying a `text-align` declaration adds
the corresponding alignment style id to the running style set. -/
def convertToInline (cfg : Config) (_tag : String) (node : Html)
    (cur : List String) : List String :=
  match getStyleDecl node "text-align" with
  | some v =>
    match alignIdOf cfg v with
    | some id => addStyle cur id
    | none => cur
  | none => cur

/-- Children of a node (text nodes have none). -/
def childrenOf : Html → List Html
  | .element _ _ cs => cs
  | .text _ => []

/-- The text of one table cell (a cell holding a single text node). -/
def cellText : Html → String
  | .element _ _ [Html.text s] => s
  | _ => ""

/-- The cells of one table row: a `<tr>` yields its cell texts. -/
def rowCells : Html → Option (List String)
  | .element t _ kids => if t == "tr" then some (kids.map cellText) else none
  | .text _ => none

/-- Modelled from the spec: the table entity builder (the external
collaborator of §4.4 rule 2, absent from `src/`) — assemble the table
entity's row/cell data from the rows and cells under the `<table>` node. -/
def assembleRows (node : Html) : List (List String) :=
  (childrenOf node).filterMap rowCells

/-- Modelled from the spec: `convertToEntity` (import internals, not
shipped in `src/`).  Returns the entity the node creates, if any:
`<a class="file-name">` → `file`, any other `<a>` → `link`; `<img>` and
`<iframe>` under a `<figure>` ancestor → `photo` / `rich`; `<hr>` →
`divider`; `<table>` → `table`.  Missing attributes default to `""`. -/
def convertToEntity (cfg : Config) (tag : String) (node : Html)
    (inFigure : Bool) : Option Entity :=
  if tag == "a" then
    if "file-name" ∈ classTokens node then
      some { etype := cfg.file.id,
             data := { src := some ((getAttr (attrsOf node) "href").getD ""),
                       name := some ((getAttr (attrsOf node) "download").getD "") } }
    else
      some { etype := cfg.link.id,
             data := { url := some ((getAttr (attrsOf node) "href").getD ""),
                       isExternal := getAttr (attrsOf node) "target" == some "_blank" } }
  else if tag == "img" then
    if inFigure then
      some { etype := cfg.photo.id,
             data := { src := some ((getAttr (attrsOf node) "src").getD "") } }
    else none
  else if tag == "iframe" then
    if inFigure then
      some { etype := cfg.rich.id,
             data := { src := some ((getAttr (attrsOf node) "src").getD "") } }
    else none
  else if tag == "hr" then some { etype := cfg.divider.id, data := {} }
  else if tag == "table" then
    some { etype := cfg.table.id, data := { rows := assembleRows node } }
  else none

/-! ## Import: tree walker / model builder (spec §4.5) -/

/-- The block currently being accumulated. -/
structure CurB where
  btype : String
  btext : String := ""
  eranges : List EntityRange := []
  sranges : List StyleRange := []
  deriving Repr

/-- Walker state: completed blocks, the open block, the entity map. -/
structure WSt where
  done : List RawBlock := []
  cur : Option CurB := none
  ents : List Entity := []
  deriving Repr

/-- Close the open block into a model block. -/
def closeBlock (c : CurB) : RawBlock :=
  { btype := c.btype, text := c.btext,
    inlineStyleRanges := c.sranges, entityRanges := c.eranges }

/-- Flush the open block (if any) onto the completed list. -/
def flushSt (st : WSt) : WSt :=
  match st.cur with
  | some c => { st with done := st.done ++ [closeBlock c], cur := none }
  | none => st

/-- Flush and open a fresh block of the given type. -/
def openBlock (st : WSt) (t : String) : WSt :=
  let st' := flushSt st
  { st' with cur := some { btype := t } }

/-- Append a text node's content to the open block (opening an `unstyled`
block when none is open), recording a style range per active style. -/
def appendText (styles : List String) (st : WSt) (s : String) : WSt :=
  let c := st.cur.getD { btype := "unstyled" }
  let off := c.btext.length
  let newRanges : List StyleRange :=
    styles.map fun sid => { style := sid, offset := off, length := s.length }
  let c' : CurB :=
    { c with btext := c.btext ++ s, sranges := c.sranges ++ newRanges }
  { st with cur := some c' }

/-- Whether the open block is atomic. -/
def curIsAtomic (st : WSt) : Bool :=
  match st.cur with
  | some c => c.btype == "atomic"
  | none => false

/-- Register an entity in the map and fill the open atomic block with the
single placeholder character its range covers. -/
def fillAtomic (st : WSt) (e : Entity) : WSt :=
  let key := st.ents.length
  match st.cur with
  | some c =>
    let c' : CurB :=
      { c with btext := " ", eranges := [{ key := key, offset := 0, length := 1 }] }
    { st with ents := st.ents ++ [e], cur := some c' }
  | none => st

/-- Register a block-level entity met outside a figure (`<hr>`, `<table>`
at top level): a self-contained atomic block. -/
def standaloneAtomic (st : WSt) (e : Entity) : WSt :=
  let key := st.ents.length
  let st' := openBlock { st with ents := st.ents ++ [e] } "atomic"
  match st'.cur with
  | some c =>
    let c' : CurB :=
      { c with btext := " ", eranges := [{ key := key, offset := 0, length := 1 }] }
    flushSt { st' with cur := some c' }
  | none => st'

mutual

/-- Modelled from the spec: the depth-first import walker (spec §4.5).
`inFig` is true inside a `<figure>` subtree (nested figures are structural
wrappers; `<img>`/`<iframe>` only create entities there). -/
def walkNode (cfg : Config) (inFig : Bool) (styles : List String) (st : WSt) :
    Html → WSt
  | .text s => appendText styles st s
  | .element tag attrs cs =>
    if tag == "figure" then
      if inFig then walkList cfg true styles st cs
      else walkList cfg true styles (openBlock st "atomic") cs
    else
      match convertToEntity cfg tag (Html.element tag attrs cs) inFig with
      | some e =>
        if curIsAtomic st && inFig then fillAtomic st e
        else if tag == "a" then
          let key := st.ents.length
          let c0 : CurB := st.cur.getD { btype := "unstyled" }
          let st1 : WSt := { st with ents := st.ents ++ [e], cur := some c0 }
          let off := c0.btext.length
          let st2 := walkList cfg inFig styles st1 cs
          match st2.cur with
          | some c =>
            let c' : CurB := { c with eranges := c.eranges ++
              [{ key := key, offset := off, length := c.btext.length - off }] }
            { st2 with cur := some c' }
          | none => st2
        else standaloneAtomic st e
      | none =>
        match convertToBlock tag (Html.element tag attrs cs) with
        | some bt => walkList cfg inFig styles (openBlock st bt) cs
        | none =>
          walkList cfg inFig (convertToInline cfg tag (Html.element tag attrs cs) styles) st cs

/-- Walk a list of sibling nodes left to right. -/
def walkList (cfg : Config) (inFig : Bool) (styles : List String) (st : WSt) :
    List Html → WSt
  | [] => st
  | c :: cs => walkList cfg inFig styles (walkNode cfg inFig styles st c) cs

end

/-- The single empty `unstyled` block an empty import falls back to. -/
def emptyUnstyledBlock : RawBlock := { btype := "unstyled", text := "" }

/-- Modelled from the spec: `convertFromHTML` — walk the parsed fragment
and return the document model, always containing at least one block. -/
def convertFromHTML (cfg : Config) (nodes : List Html) :
    List RawBlock × List Entity :=
  let st := flushSt (walkList cfg false [] {} nodes)
  (if st.done.isEmpty then [emptyUnstyledBlock] else st.done, st.ents)

/-! ## Round-trip correspondence apparatus -/

/-- Collapse each maximal run of empty `unstyled` blocks to its first
block (the model-side image of the blank-line folding rule). -/
def collapseGo : Bool → List RawBlock → List RawBlock
  | _, [] => []
  | prev, b :: bs =>
    if emptyU b then
      if prev then collapseGo true bs else b :: collapseGo true bs
    else b :: collapseGo false bs

/-- Collapse a whole block list. -/
def collapse (bs : List RawBlock) : List RawBlock := collapseGo false bs

/-- What the round-trip claim compares per block: type, text, and the
kind/data of each referenced entity (keys resolved through the map). -/
structure BlockSig where
  btype : String
  text : String
  entities : List (String × EntityData)
  deriving DecidableEq, Repr

/-- Resolve one entity range to its kind and data. -/
def resolveRange (em : List Entity) (r : EntityRange) : String × EntityData :=
  match em[r.key]? with
  | some e => (e.etype, e.data)
  | none => ("", {})

/-- The signature of one block under an entity map. -/
def blockSig (em : List Entity) (b : RawBlock) : BlockSig :=
  { btype := b.btype, text := b.text,
    entities := b.entityRanges.map (resolveRange em) }

/-- The signature of a whole document. -/
def docSig (em : List Entity) (bs : List RawBlock) : List BlockSig :=
  bs.map (blockSig em)

/-- Whether a style id is one of the three recognized alignment ids. -/
def isAlignId (cfg : Config) (s : String) : Prop :=
  s = cfg.alignLeft.id ∨ s = cfg.alignCenter.id ∨ s = cfg.alignRight.id

/-- A well-formed entity for the round trip: a recognized renderable kind
carrying exactly its required data fields (in particular no caption —
caption data does not survive re-import, see the C1 counterexample). -/
def wfEntity (cfg : Config) (e : Entity) : Prop :=
  (e.etype = cfg.photo.id ∧ ∃ s, e.data = { src := some s }) ∨
  (e.etype = cfg.file.id ∧ ∃ s n, e.data = { src := some s, name := some n }) ∨
  (e.etype = cfg.rich.id ∧ ∃ s, e.data = { src := some s }) ∨
  (e.etype = cfg.divider.id ∧ e.data = {}) ∨
  (e.etype = cfg.table.id ∧ ∃ rows, e.data = { rows := rows })

/-- A well-formed inline entity reference of a text block: a link entity
carrying exactly its url and external marker. -/
def wfLinkRange (cfg : Config) (em : List Entity) (r : EntityRange) : Prop :=
  ∃ e, em[r.key]? = some e ∧ e.etype = cfg.link.id ∧
    ∃ u x, e.data = { url := some u, isExternal := x }

/-- A well-formed block for the round trip: an `unstyled` text block whose
style ranges use recognized alignment ids and whose entity ranges are link
references (none when the text is empty, since the blank-line rule folds
such blocks away), or an `atomic` block holding exactly one well-formed
entity over the single placeholder character. -/
def wfBlock (cfg : Config) (em : List Entity) (b : RawBlock) : Prop :=
  (b.btype = "unstyled" ∧
    (∀ r ∈ b.inlineStyleRanges, isAlignId cfg r.style) ∧
    (∀ r ∈ b.entityRanges, wfLinkRange cfg em r) ∧
    (b.text = "" → b.entityRanges = [])) ∨
  (b.btype = "atomic" ∧ b.text = " " ∧ b.inlineStyleRanges = [] ∧
    ∃ r, b.entityRanges = [r] ∧ ∃ e, em[r.key]? = some e ∧ wfEntity cfg e)

/-- The link markup's css class must not accidentally carry the
`file-name` token, or re-import would classify exported links as file
entities. -/
def Config.linkClassOk (cfg : Config) : Prop :=
  "file-name" ∉ classTokenList (customBlockClass cfg.link.cssClass)

/-- The open block of a walker state, closed, as a singleton list. -/
def curList (st : WSt) : List RawBlock :=
  match st.cur with
  | some c => [closeBlock c]
  | none => []

/-- The document signature the walker state would produce if finished now. -/
def afterSigs (st : WSt) : List BlockSig :=
  docSig st.ents (st.done ++ curList st)

/-- Every entity range held by the state points into its entity map. -/
def StOK (st : WSt) : Prop :=
  ∀ b ∈ st.done ++ curList st, ∀ r ∈ b.entityRanges, r.key < st.ents.length

/-- The blank-line flag after exporting a list of blocks. -/
def flagAfter (fl : Bool) (bs : List RawBlock) : Bool :=
  match bs.getLast? with
  | some b => emptyU b
  | none => fl

/-- Replace the open block of a walker state. -/
def setCur (st : WSt) (c : CurB) : WSt :=
  { st with cur := some c }

/-- Append an entity to a walker state's entity map. -/
def pushEnt (st : WSt) (e : Entity) : WSt :=
  { st with ents := st.ents ++ [e] }

/-- `k` consecutive `<br>` tags as a string. -/
def brString : Nat → String
  | 0 => ""
  | k + 1 => "<br>" ++ brString k

/-! ## Theorems -/

/-- C4: the entity converter on a `file` entity with `src:'test.com'`,
`name:'test'` yields exactly the figure-wrapped download anchor of the
test suite; in general, for any `src`/`name` it renders an anchor with
class `file-name`, `href` the source, `download` the file name, and the
file name as link text, inside the `document`-classed figure. -/
theorem file_entity_markup :
    (convertEntity TOOLBAR_DEFAULTS
      { etype := TOOLBAR_DEFAULTS.file.id,
        data := { src := some "test.com", name := some "test" } }).map renderStatic =
      some "<figure class=\"content-editor__custom-block document\"><a class=\"file-name\" href=\"test.com\" download=\"test\">test</a></figure>" ∧
    ∀ s n : String,
      convertEntity TOOLBAR_DEFAULTS
        { etype := TOOLBAR_DEFAULTS.file.id, data := { src := some s, name := some n } } =
      some (Html.element "figure" [("class", "content-editor__custom-block document")]
        [Html.element "a" [("class", "file-name"), ("href", s), ("download", n)]
          [Html.text n]]) :=
  ⟨rfl, fun _ _ => rfl⟩

/-- C5: each of the three alignment style ids renders as a block-level
alignment span `display:block;text-align:<value>;`, not ordinary inline
styling; concretely `alignRight` renders to
`<span style="display:block;text-align:right;"></span>`. -/
theorem alignment_styles_render :
    ((convertInline TOOLBAR_DEFAULTS TOOLBAR_DEFAULTS.alignLeft.id).map renderStatic =
        some "<span style=\"display:block;text-align:left;\"></span>" ∧
      (convertInline TOOLBAR_DEFAULTS TOOLBAR_DEFAULTS.alignCenter.id).map renderStatic =
        some "<span style=\"display:block;text-align:center;\"></span>" ∧
      (convertInline TOOLBAR_DEFAULTS TOOLBAR_DEFAULTS.alignRight.id).map renderStatic =
        some "<span style=\"display:block;text-align:right;\"></span>") ∧
    ∀ cfg : Config, cfg.alignCenter.id ≠ cfg.alignLeft.id →
      cfg.alignRight.id ≠ cfg.alignLeft.id → cfg.alignRight.id ≠ cfg.alignCenter.id →
      convertInline cfg cfg.alignLeft.id = some (alignSpan "left") ∧
      convertInline cfg cfg.alignCenter.id = some (alignSpan "center") ∧
      convertInline cfg cfg.alignRight.id = some (alignSpan "right") := by
  refine ⟨⟨rfl, rfl, rfl⟩, fun cfg h1 h2 h3 => ⟨?_, ?_, ?_⟩⟩
  · simp [convertInline]
  · simp [convertInline, beq_eq_false_iff_ne.mpr h1]
  · simp [convertInline, beq_eq_false_iff_ne.mpr h2, beq_eq_false_iff_ne.mpr h3]

/-- C5 witness: the general alignment-rendering clause instantiated at the
default configuration. -/
theorem alignment_styles_render_witness :
    convertInline TOOLBAR_DEFAULTS TOOLBAR_DEFAULTS.alignRight.id =
      some (alignSpan "right") :=
  (alignment_styles_render.2 TOOLBAR_DEFAULTS (by decide) (by decide) (by decide)).2.2

/-- C9: importing any HTML fragment yields a model with at least one
block, and importing the empty fragment yields exactly one empty
`unstyled` block (and an empty entity map). -/
theorem import_always_nonempty :
    (∀ (cfg : Config) (nodes : List Html),
      1 ≤ (convertFromHTML cfg nodes).1.length) ∧
    ∀ cfg : Config, convertFromHTML cfg [] = ([emptyUnstyledBlock], []) := by
  constructor
  · intro cfg nodes
    unfold convertFromHTML
    set st := flushSt (walkList cfg false [] {} nodes) with hst
    by_cases h : st.done.isEmpty
    · simp [h]
    · simp only [h, if_false, Bool.false_eq_true]
      have hne : st.done ≠ [] := fun hnil => h (by simp [hnil])
      exact List.length_pos.mpr hne
  · intro cfg
    rfl

/-- C3: exporting a single atomic block holding a `photo` entity with
`src:'test.com'` produces exactly the nested-figure markup of the test
suite; in general an atomic block's outer figure carries class
`atomic <kind>-block` and wraps the entity markup. -/
theorem atomic_photo_export :
    convertToHTML TOOLBAR_DEFAULTS
      [{ btype := "atomic", text := " ",
         entityRanges := [{ key := 0, offset := 0, length := 1 }] }]
      [{ etype := TOOLBAR_DEFAULTS.photo.id, data := { src := some "test.com" } }] =
      some "<figure class=\"atomic photo-block\"><figure class=\"content-editor__custom-block photo\"><img src=\"test.com\"></figure></figure>" ∧
    ∀ (cfg : Config) (em : List Entity) (b : RawBlock) (r : EntityRange)
      (e : Entity) (m : Html) (c : String),
      b.btype = "atomic" → b.entityRanges = [r] → em[r.key]? = some e →
      convertEntity cfg e = some m → cssClassOf cfg e.etype = some c →
      exportBlockTree cfg em b =
        some (Html.element "figure" [("class", "atomic " ++ c ++ "-block")] [m]) := by
  refine ⟨rfl, fun cfg em b r e m c hb hr he hm hc => ?_⟩
  simp [exportBlockTree, hb, hr, he, hm, hc]

/-- C3 witness: the general atomic-wrapper clause instantiated at the
test's photo block. -/
theorem atomic_photo_export_witness :
    exportBlockTree TOOLBAR_DEFAULTS
      [{ etype := TOOLBAR_DEFAULTS.photo.id, data := { src := some "test.com" } }]
      { btype := "atomic", text := " ",
        entityRanges := [{ key := 0, offset := 0, length := 1 }] } =
      some (Html.element "figure" [("class", "atomic " ++ "photo" ++ "-block")]
        [Html.element "figure" [("class", "content-editor__custom-block photo")]
          [Html.element "img" [("src", "test.com")] []]]) :=
  atomic_photo_export.2 TOOLBAR_DEFAULTS _ _
    { key := 0, offset := 0, length := 1 }
    { etype := TOOLBAR_DEFAULTS.photo.id, data := { src := some "test.com" } }
    _ _ rfl rfl rfl rfl rfl

/-- C10: the `Document` renderer reads `file.src`/`file.name` from the
nested `file` object of `blockProps` (or of the props themselves),
ignoring top-level `src`/`name`; a falsy caption renders exactly the
`document`-classed figure with only the anchor, a truthy caption adds
` with-caption` to the class and a trailing `figcaption.caption`. -/
theorem document_renderer :
    (∀ (props : DocProps) (f : FileObj),
      (props.blockProps.getD props.own).file = some f →
      truthy (props.blockProps.getD props.own).caption = false →
      Document props = some (Html.element "figure"
        [("class", "content-editor__custom-block document")]
        [Html.element "a" [("class", "file-name"), ("href", f.src), ("download", f.name)]
          [Html.text f.name]])) ∧
    (∀ (props : DocProps) (f : FileObj) (cap : String),
      (props.blockProps.getD props.own).file = some f →
      (props.blockProps.getD props.own).caption = some cap → cap ≠ "" →
      Document props = some (Html.element "figure"
        [("class", "content-editor__custom-block document with-caption")]
        [Html.element "a" [("class", "file-name"), ("href", f.src), ("download", f.name)]
          [Html.text f.name],
         Html.element "figcaption" [("class", "caption")] [Html.text cap]])) ∧
    (∀ (bp own : DocBag) (s n : Option String),
      Document { blockProps := some bp, own := own } =
        Document { blockProps := some { bp with src := s, name := n }, own := own } ∧
      Document { blockProps := none, own := own } =
        Document { blockProps := none, own := { own with src := s, name := n } }) := by
  refine ⟨fun props f hf hcap => ?_, fun props f cap hf hcap hne => ?_,
    fun bp own s n => ⟨rfl, rfl⟩⟩
  · simp only [Document, hf, hcap]
    simp
  · have hb : (cap == "") = false := beq_eq_false_iff_ne.mpr hne
    have ht : truthy (props.blockProps.getD props.own).caption = true := by
      rw [hcap]; simp [truthy, hb]
    simp only [Document, hf, ht, hcap]
    simp [truthy, hb]

/-- C10 witness: the caption-free clause at concrete props carrying both a
nested file object and (ignored) top-level `src`/`name` fields. -/
theorem document_renderer_witness :
    Document { blockProps := some { file := some { src := "f.com", name := "fn" }, src := some "ignored", name := some "ignored" } } =
      some (Html.element "figure"
        [("class", "content-editor__custom-block document")]
        [Html.element "a" [("class", "file-name"), ("href", "f.com"), ("download", "fn")]
          [Html.text "fn"]]) :=
  document_renderer.1
    { blockProps := some { file := some { src := "f.com", name := "fn" }, src := some "ignored", name := some "ignored" } }
    { src := "f.com", name := "fn" } rfl rfl

/-- C7: an `<a>` element creates a `file` entity exactly when its class
attribute contains the `file-name` token; every other `<a>` creates a
`link` entity. -/
theorem anchor_classification :
    (∀ (cfg : Config) (node : Html) (inFig : Bool),
      "file-name" ∈ classTokens node →
      (convertToEntity cfg "a" node inFig).map Entity.etype = some cfg.file.id) ∧
    (∀ (cfg : Config) (node : Html) (inFig : Bool),
      "file-name" ∉ classTokens node →
      (convertToEntity cfg "a" node inFig).map Entity.etype = some cfg.link.id) ∧
    (∀ (cfg : Config) (node : Html) (inFig : Bool),
      cfg.link.id ≠ cfg.file.id →
      ((convertToEntity cfg "a" node inFig).map Entity.etype = some cfg.file.id ↔
        "file-name" ∈ classTokens node)) := by
  refine ⟨fun cfg node inFig h => by simp [convertToEntity, h],
    fun cfg node inFig h => by simp [convertToEntity, h],
    fun cfg node inFig hne => ?_⟩
  by_cases h : "file-name" ∈ classTokens node <;>
    simp [convertToEntity, h, hne]

/-- C7 witness: both classification clauses at concrete anchors (one with
the `file-name` class, one without). -/
theorem anchor_classification_witness :
    (convertToEntity TOOLBAR_DEFAULTS "a"
        (Html.element "a" [("class", "file-name")] []) false).map Entity.etype =
      some TOOLBAR_DEFAULTS.file.id ∧
    (convertToEntity TOOLBAR_DEFAULTS "a"
        (Html.element "a" [("href", "x.com")] []) false).map Entity.etype =
      some TOOLBAR_DEFAULTS.link.id :=
  ⟨anchor_classification.1 TOOLBAR_DEFAULTS
      (Html.element "a" [("class", "file-name")] []) false (by decide),
    anchor_classification.2.1 TOOLBAR_DEFAULTS
      (Html.element "a" [("href", "x.com")] []) false (by decide)⟩

/-- C6: an element whose `style` attribute carries a `text-align`
declaration with a recognized alignment value adds the corresponding
alignment style id to the running style set; concretely a
`<span style="text-align:center">` yields the `alignCenter` id. -/
theorem text_align_import :
    (∀ (cfg : Config) (node : Html) (cur : List String) (v id : String),
      getStyleDecl node "text-align" = some v → alignIdOf cfg v = some id →
      convertToInline cfg "span" node cur = addStyle cur id) ∧
    convertToInline TOOLBAR_DEFAULTS "span"
      (Html.element "span" [("style", "text-align:center")] []) [] =
      [TOOLBAR_DEFAULTS.alignCenter.id] := by
  refine ⟨fun cfg node cur v id hv hid => ?_, ?_⟩
  · simp [convertToInline, hv, hid]
  · rfl

/-- C6 witness: the general clause at the test's concrete span. -/
theorem text_align_import_witness :
    convertToInline TOOLBAR_DEFAULTS "span"
      (Html.element "span" [("style", "text-align:center")] []) ["x"] =
      addStyle ["x"] TOOLBAR_DEFAULTS.alignCenter.id :=
  text_align_import.1 TOOLBAR_DEFAULTS
    (Html.element "span" [("style", "text-align:center")] []) ["x"]
    "center" TOOLBAR_DEFAULTS.alignCenter.id (by decide) (by decide)

/-- A figure node is not a text node. -/
theorem isFigure_not_text {x : Html} (h : isFigureNode x = true) :
    isTextNode x = false := by
  cases x with
  | text s => simp [isFigureNode] at h
  | element t a cs => rfl

/-- Cleaning a list of pointwise clean-fixed nodes is the identity. -/
theorem cleanList_of_fixed : ∀ l : List Html,
    (∀ x ∈ l, cleanNode x = x) → cleanList l = l := by
  intro l h
  induction l with
  | nil => rfl
  | cons c cs ih =>
    rw [cleanList, h c (by simp), ih fun x hx => h x (by simp [hx])]

/-- Filtering out text nodes preserves the presence of a figure node. -/
theorem any_figure_filter (l : List Html) (h : l.any isFigureNode = true) :
    (l.filter fun c => !isTextNode c).any isFigureNode = true := by
  rcases List.any_eq_true.mp h with ⟨x, hx, hfig⟩
  exact List.any_eq_true.mpr
    ⟨x, List.mem_filter.mpr ⟨hx, by simp [isFigure_not_text hfig]⟩, hfig⟩

mutual

theorem cleanNode_fixed : ∀ h : Html, cleanNode (cleanNode h) = cleanNode h
  | .text s => rfl
  | .element t a cs => by
    have hmem := cleanList_mem_fixed cs
    have hll : cleanList (cleanList cs) = cleanList cs := cleanList_of_fixed _ hmem
    by_cases hc : (t == "figure" && (cleanList cs).any isFigureNode) = true
    · have h1 : cleanNode (.element t a cs) =
          .element t a ((cleanList cs).filter fun c => !isTextNode c) := by
        simp only [cleanNode]
        rw [if_pos hc]
      have hfixf : ∀ x ∈ (cleanList cs).filter fun c => !isTextNode c,
          cleanNode x = x :=
        fun x hx => hmem x (List.mem_of_mem_filter hx)
      have h2 : cleanList ((cleanList cs).filter fun c => !isTextNode c) =
          (cleanList cs).filter fun c => !isTextNode c :=
        cleanList_of_fixed _ hfixf
      have hcond : (t == "figure" &&
          ((cleanList cs).filter fun c => !isTextNode c).any isFigureNode) = true := by
        have h' := hc
        simp only [Bool.and_eq_true] at h' ⊢
        exact ⟨h'.1, any_figure_filter _ h'.2⟩
      rw [h1]
      simp only [cleanNode]
      rw [h2, if_pos hcond]
      have : ((cleanList cs).filter fun c => !isTextNode c).filter
          (fun c => !isTextNode c) = (cleanList cs).filter fun c => !isTextNode c :=
        List.filter_eq_self.mpr fun a ha => (List.mem_filter.mp ha).2
      rw [this]
    · have h1 : cleanNode (.element t a cs) = .element t a (cleanList cs) := by
        simp only [cleanNode]
        rw [if_neg hc]
      rw [h1]
      simp only [cleanNode]
      rw [hll, if_neg hc]

theorem cleanList_mem_fixed : ∀ l : List Html, ∀ x ∈ cleanList l, cleanNode x = x
  | [] => by intro x hx; simp [cleanList] at hx
  | c :: cs => by
    intro x hx
    rw [cleanList] at hx
    rcases List.mem_cons.mp hx with h | h
    · rw [h]; exact cleanNode_fixed c
    · exact cleanList_mem_fixed cs x h

end

/-- C8: the cleanup pass is idempotent, and on an outer figure holding a
nested (clean) figure plus a stray raw-text sibling it strips exactly that
stray text; on the test-suite input it produces exactly the expected
string. -/
theorem cleanup_idempotent_minimal :
    (∀ t : Html, cleanNode (cleanNode t) = cleanNode t) ∧
    (∀ (a : List (String × String)) (f : Html) (s : String),
      isFigureNode f = true → cleanNode f = f →
      cleanNode (Html.element "figure" a [f, Html.text s]) =
        Html.element "figure" a [f]) ∧
    renderDom (cleanNode (Html.element "figure" [("class", "atomic")]
      [Html.element "figure" [] [Html.element "figcaption" [] [Html.text "TEST!"]],
       Html.text "TEST!"])) =
      "<figure class=\"atomic\"><figure><figcaption>TEST!</figcaption></figure></figure>" := by
  refine ⟨cleanNode_fixed, fun a f s hfig hfix => ?_, rfl⟩
  simp only [cleanNode, cleanList]
  rw [hfix]
  have h1 : isTextNode f = false := isFigure_not_text hfig
  have h2 : isTextNode (Html.text s) = true := rfl
  simp [List.filter_cons, h1, h2, hfig]

/-- C8 witness: the stray-text stripping clause at a concrete figure. -/
theorem cleanup_idempotent_minimal_witness :
    cleanNode (Html.element "figure" [] [Html.element "figure" [] [],
      Html.text "stray"]) = Html.element "figure" [] [Html.element "figure" [] []] :=
  cleanup_idempotent_minimal.2.1 [] (Html.element "figure" [] []) "stray" rfl rfl

/-- Exporting a list headed by a non-empty block ignores the flag. -/
theorem exportGo_nonempty_head (cfg : Config) (em : List Entity) (fl : Bool)
    (b : RawBlock) (bs : List RawBlock) (h : emptyU b = false) :
    exportGo cfg em fl (b :: bs) = exportGo cfg em false (b :: bs) := by
  simp [exportGo, h]

/-- The blank-line flag after a cons. -/
theorem flagAfter_cons (fl : Bool) (b : RawBlock) (bs : List RawBlock) :
    flagAfter fl (b :: bs) = flagAfter (emptyU b) bs := by
  cases bs with
  | nil => simp [flagAfter, List.getLast?_singleton]
  | cons b2 bs2 =>
    simp only [flagAfter, List.getLast?_cons_cons]
    cases hl : (b2 :: bs2).getLast? with
    | none => exact absurd (List.getLast?_eq_none_iff.mp hl) (by simp)
    | some x => rfl

/-- The flag after a list whose last block is not empty (or which is
empty) entered with flag `false` is `false`. -/
theorem flagAfter_false (pre : List RawBlock)
    (h : ∀ b, pre.getLast? = some b → emptyU b = false) :
    flagAfter false pre = false := by
  unfold flagAfter
  cases hl : pre.getLast? with
  | none => rfl
  | some b => exact h b hl

/-- The flag after a nonempty all-empty run is `true`. -/
theorem flagAfter_empties : ∀ (run : List RawBlock) (fl : Bool), run ≠ [] →
    (∀ b ∈ run, emptyU b = true) → flagAfter fl run = true := by
  intro run
  induction run with
  | nil => intro fl h; exact absurd rfl h
  | cons b bs ih =>
    intro fl _ hall
    rw [flagAfter_cons]
    cases bs with
    | nil => simpa [flagAfter] using hall b (by simp)
    | cons b2 bs2 =>
      exact ih (emptyU b) (by simp) fun x hx => hall x (by simp [hx])

/-- Export distributes over append, threading the blank-line flag. -/
theorem exportGo_append (cfg : Config) (em : List Entity) :
    ∀ (xs : List RawBlock) (fl : Bool) (ys : List RawBlock),
    exportGo cfg em fl (xs ++ ys) =
      (exportGo cfg em fl xs).bind fun t1 =>
        (exportGo cfg em (flagAfter fl xs) ys).map (t1 ++ ·) := by
  intro xs
  induction xs with
  | nil =>
    intro fl ys
    simp [exportGo, flagAfter]
  | cons b bs ih =>
    intro fl ys
    by_cases h : emptyU b = true
    · rw [List.cons_append]
      rw [show exportGo cfg em fl (b :: (bs ++ ys)) =
        (exportGo cfg em true (bs ++ ys)).map
          (fun ts => (if fl then brTag else pTag) :: ts) by simp [exportGo, h]]
      rw [show exportGo cfg em fl (b :: bs) =
        (exportGo cfg em true bs).map
          (fun ts => (if fl then brTag else pTag) :: ts) by simp [exportGo, h]]
      rw [ih true ys, flagAfter_cons, h]
      cases exportGo cfg em true bs <;>
        cases exportGo cfg em (flagAfter true bs) ys <;> simp
    · have hfa : emptyU b = false := by simpa using h
      rw [List.cons_append]
      rw [show exportGo cfg em fl (b :: (bs ++ ys)) =
        (exportBlockTree cfg em b).bind fun t =>
          (exportGo cfg em false (bs ++ ys)).bind fun ts => some (t :: ts) from by
            simp [exportGo, hfa]]
      rw [show exportGo cfg em fl (b :: bs) =
        (exportBlockTree cfg em b).bind fun t =>
          (exportGo cfg em false bs).bind fun ts => some (t :: ts) from by
            simp [exportGo, hfa]]
      rw [ih false ys, flagAfter_cons, hfa]
      cases exportBlockTree cfg em b <;>
        cases exportGo cfg em false bs <;>
        cases exportGo cfg em (flagAfter false bs) ys <;> simp

/-- A run of empty blocks entered with flag `true` exports to only `<br>`s. -/
theorem exportGo_empties_true (cfg : Config) (em : List Entity) :
    ∀ run : List RawBlock, (∀ b ∈ run, emptyU b = true) →
    exportGo cfg em true run = some (List.replicate run.length brTag) := by
  intro run
  induction run with
  | nil => intro _; rfl
  | cons b bs ih =>
    intro hall
    have hb : emptyU b = true := hall b (by simp)
    rw [show exportGo cfg em true (b :: bs) =
      (exportGo cfg em true bs).map (brTag :: ·) by simp [exportGo, hb]]
    rw [ih fun x hx => hall x (by simp [hx])]
    simp [List.replicate_succ]

/-- A nonempty run of empty blocks entered with flag `false` exports to
one `<p></p>` and then `<br>`s. -/
theorem exportGo_empties_false (cfg : Config) (em : List Entity)
    (run : List RawBlock) (hne : run ≠ []) (hall : ∀ b ∈ run, emptyU b = true) :
    exportGo cfg em false run =
      some (pTag :: List.replicate (run.length - 1) brTag) := by
  cases run with
  | nil => exact absurd rfl hne
  | cons b bs =>
    have hb : emptyU b = true := hall b (by simp)
    rw [show exportGo cfg em false (b :: bs) =
      (exportGo cfg em true bs).map (pTag :: ·) by simp [exportGo, hb]]
    rw [exportGo_empties_true cfg em bs fun x hx => hall x (by simp [hx])]
    simp

/-- Cleanup distributes over sibling-list append. -/
theorem cleanList_append : ∀ xs ys : List Html,
    cleanList (xs ++ ys) = cleanList xs ++ cleanList ys := by
  intro xs ys
  induction xs with
  | nil => rfl
  | cons c cs ih => rw [List.cons_append, cleanList, ih, cleanList, List.cons_append]

/-- DOM serialization distributes over sibling-list append. -/
theorem renderDomList_append : ∀ xs ys : List Html,
    renderDomList (xs ++ ys) = renderDomList xs ++ renderDomList ys := by
  intro xs ys
  induction xs with
  | nil => simp [renderDomList]
  | cons c cs ih =>
    rw [List.cons_append, renderDomList, ih, renderDomList, String.append_assoc]

/-- `<br>` runs are already clean. -/
theorem cleanList_replicate_br : ∀ k, cleanList (List.replicate k brTag) =
    List.replicate k brTag := by
  intro k
  induction k with
  | zero => rfl
  | succ n ih => rw [List.replicate_succ, cleanList, ih]; rfl

/-- `<br>` runs serialize to `brString`. -/
theorem renderDomList_replicate_br : ∀ k, renderDomList (List.replicate k brTag) =
    brString k := by
  intro k
  induction k with
  | zero => rfl
  | succ n ih => rw [List.replicate_succ, renderDomList, ih]; rfl

/-- A `<p></p>` followed by a `<br>` run is already clean. -/
theorem cleanList_p_brs (k : Nat) :
    cleanList (pTag :: List.replicate k brTag) = pTag :: List.replicate k brTag := by
  rw [cleanList, cleanList_replicate_br]
  rfl

/-- A `<p></p>` followed by a `<br>` run serializes to the folded form. -/
theorem renderDomList_p_brs (k : Nat) :
    renderDomList (pTag :: List.replicate k brTag) = "<p></p>" ++ brString k := by
  rw [renderDomList, renderDomList_replicate_br]
  rfl

/-- C2: a maximal run of `N ≥ 1` consecutive empty `unstyled` blocks
(preceded and followed by no empty block) exports to exactly one
`<p></p>` followed by `N − 1` `<br>` tags, in place, with the
surroundings exported as usual. -/
theorem blank_line_folding (cfg : Config) (em : List Entity)
    (pre run post : List RawBlock) (t1 t3 : List Html)
    (hrun : run ≠ []) (hemp : ∀ b ∈ run, emptyU b = true)
    (hpre : ∀ b, pre.getLast? = some b → emptyU b = false)
    (hpost : ∀ b, post.head? = some b → emptyU b = false)
    (h1 : exportGo cfg em false pre = some t1)
    (h3 : exportGo cfg em false post = some t3) :
    convertToHTML cfg (pre ++ run ++ post) em =
      some (renderDomList (cleanList t1) ++
        ("<p></p>" ++ brString (run.length - 1)) ++
        renderDomList (cleanList t3)) := by
  have hpostTrue : exportGo cfg em true post = some t3 := by
    cases post with
    | nil => simpa using h3
    | cons p ps =>
      rw [exportGo_nonempty_head cfg em true p ps (hpost p (by simp))]
      exact h3
  have hmid : exportGo cfg em false (run ++ post) =
      some ((pTag :: List.replicate (run.length - 1) brTag) ++ t3) := by
    rw [exportGo_append, exportGo_empties_false cfg em run hrun hemp,
      flagAfter_empties run false hrun hemp]
    simp [hpostTrue]
  have hall : exportGo cfg em false (pre ++ (run ++ post)) =
      some (t1 ++ ((pTag :: List.replicate (run.length - 1) brTag) ++ t3)) := by
    rw [exportGo_append, h1, flagAfter_false pre hpre]
    simp [hmid]
  have hassoc : pre ++ run ++ post = pre ++ (run ++ post) := by
    rw [List.append_assoc]
  rw [convertToHTML, exportTrees, hassoc, hall]
  simp only [Option.map_some']
  congr 1
  rw [cleanList_append, cleanList_append, cleanList_p_brs,
    renderDomList_append, renderDomList_append, renderDomList_p_brs]
  simp [String.append_assoc]

/-- C2 witness: the folding theorem at the test-suite document of two
empty blocks, giving exactly `<p></p><br>`. -/
theorem blank_line_folding_witness :
    convertToHTML TOOLBAR_DEFAULTS
      [{ btype := "unstyled", text := "" }, { btype := "unstyled", text := "" }] [] =
      some (renderDomList (cleanList []) ++
        ("<p></p>" ++ brString (([({ btype := "unstyled", text := "" } : RawBlock),
          { btype := "unstyled", text := "" }] : List RawBlock).length - 1)) ++
        renderDomList (cleanList [])) :=
  blank_line_folding TOOLBAR_DEFAULTS [] []
    [{ btype := "unstyled", text := "" }, { btype := "unstyled", text := "" }] [] [] []
    (by simp) (by decide) (by simp) (by simp) rfl rfl

/-! ## Round trip: the cleanup pass fixes the export output -/

/-- Entity markup produced by the converter is already clean. -/
theorem clean_fixed_entity (cfg : Config) (e : Entity) (m : Html)
    (hm : convertEntity cfg e = some m) : cleanNode m = m := by
  unfold convertEntity at hm
  by_cases h1 : (e.etype == cfg.link.id) = true
  · rw [if_pos h1] at hm
    cases hm
    simp [cleanNode, cleanList, isFigureNode]
  · rw [if_neg h1] at hm
    by_cases h2 : (e.etype == cfg.divider.id) = true
    · rw [if_pos h2] at hm
      cases hm
      simp [cleanNode, cleanList, isFigureNode]
    · rw [if_neg h2] at hm
      by_cases h3 : (e.etype == cfg.photo.id) = true
      · rw [if_pos h3] at hm
        cases hsrc : e.data.src with
        | none => rw [hsrc] at hm; cases hm
        | some s =>
          rw [hsrc] at hm
          cases hm
          simp [cleanNode, cleanList, isFigureNode, isTextNode]
      · rw [if_neg h3] at hm
        by_cases h4 : (e.etype == cfg.file.id) = true
        · rw [if_pos h4] at hm
          cases hsrc : e.data.src with
          | none => rw [hsrc] at hm; cases hm
          | some s =>
            cases hname : e.data.name with
            | none => rw [hsrc, hname] at hm; cases hm
            | some n =>
              rw [hsrc, hname] at hm
              unfold Document at hm
              by_cases hcap : truthy e.data.caption = true
              · simp [hcap] at hm
                rw [← hm]
                simp [cleanNode, cleanList, isFigureNode, isTextNode]
              · have hcap' : truthy e.data.caption = false := by simpa using hcap
                simp [hcap'] at hm
                rw [← hm]
                simp [cleanNode, cleanList, isFigureNode, isTextNode]
        · rw [if_neg h4] at hm
          by_cases h5 : (e.etype == cfg.rich.id) = true
          · rw [if_pos h5] at hm
            cases hsrc : e.data.src with
            | none => rw [hsrc] at hm; cases hm
            | some s =>
              rw [hsrc] at hm
              cases hm
              simp [cleanNode, cleanList, isFigureNode, isTextNode]
          · rw [if_neg h5] at hm
            by_cases h6 : (e.etype == cfg.table.id) = true
            · rw [if_pos h6] at hm
              cases hm
              simp [cleanNode, cleanList, isFigureNode, isTextNode]
              induction e.data.rows with
              | nil => simp [cleanList]
              | cons r rs ih =>
                simp [cleanList, ih, cleanNode]
                induction r with
                | nil => simp [cleanList]
                | cons c cs ih2 => simp [cleanList, ih2, cleanNode]
            · rw [if_neg h6] at hm
              cases hm

/-- Inversion for `optionMap`: every output element comes from an input. -/
theorem optionMap_mem {α β : Type} {f : α → Option β} : ∀ {l : List α} {ys : List β},
    optionMap f l = some ys → ∀ y ∈ ys, ∃ x ∈ l, f x = some y := by
  intro l
  induction l with
  | nil =>
    intro ys h y hy
    cases h
    simp at hy
  | cons a as ih =>
    intro ys h y hy
    unfold optionMap at h
    cases hfa : f a with
    | none => rw [hfa] at h; cases h
    | some b =>
      rw [hfa] at h
      cases hrest : optionMap f as with
      | none => rw [hrest] at h; cases h
      | some bs =>
        rw [hrest] at h
        simp at h
        rw [← h] at hy
        rcases List.mem_cons.mp hy with hy | hy
        · exact ⟨a, by simp, hy ▸ hfa⟩
        · obtain ⟨x, hx, hfx⟩ := ih hrest y hy
          exact ⟨x, by simp [hx], hfx⟩

/-- The inline style converter only produces childless spans. -/
theorem convertInline_tag (cfg : Config) (sid : String) (h : Html)
    (hc : convertInline cfg sid = some h) : ∃ a, h = Html.element "span" a [] := by
  unfold convertInline at hc
  by_cases h1 : (sid == cfg.alignLeft.id) = true
  · rw [if_pos h1] at hc; cases hc; exact ⟨_, rfl⟩
  · rw [if_neg h1] at hc
    by_cases h2 : (sid == cfg.alignCenter.id) = true
    · rw [if_pos h2] at hc; cases hc; exact ⟨_, rfl⟩
    · rw [if_neg h2] at hc
      by_cases h3 : (sid == cfg.alignRight.id) = true
      · rw [if_pos h3] at hc; cases hc; exact ⟨_, rfl⟩
      · rw [if_neg h3] at hc; cases hc

/-- Span-wrapped text runs are already clean. -/
theorem clean_fixed_wrap (cfg : Config) : ∀ (g : List String) (s : String) (h : Html),
    wrapSpans cfg g s = some h → cleanNode h = h := by
  intro g
  induction g with
  | nil =>
    intro s h hw
    cases hw
    rfl
  | cons st sts ih =>
    intro s h hw
    unfold wrapSpans at hw
    cases hin : wrapSpans cfg sts s with
    | none => rw [hin] at hw; cases hw
    | some inner =>
      rw [hin] at hw
      cases hci : convertInline cfg st with
      | none => simp [hci] at hw
      | some x =>
        obtain ⟨a, hx⟩ := convertInline_tag cfg st x hci
        subst hx
        simp [hci] at hw
        rw [← hw]
        simp [cleanNode, cleanList, ih s inner hin, isFigureNode]

/-- Span-wrapped text runs are never figure nodes. -/
theorem wrapSpans_not_figure (cfg : Config) (g : List String) (s : String)
    (h : Html) (hw : wrapSpans cfg g s = some h) : isFigureNode h = false := by
  cases g with
  | nil =>
    cases hw
    rfl
  | cons st sts =>
    unfold wrapSpans at hw
    cases hin : wrapSpans cfg sts s with
    | none => rw [hin] at hw; cases hw
    | some inner =>
      rw [hin] at hw
      cases hci : convertInline cfg st with
      | none => simp [hci] at hw
      | some x =>
        obtain ⟨a, hx⟩ := convertInline_tag cfg st x hci
        subst hx
        simp [hci] at hw
        rw [← hw]
        rfl

/-- Elements of a styled-runs list are clean and are not figures. -/
theorem clean_fixed_styledRuns (cfg : Config) (rs : List StyleRange) (i : Nat)
    (g : List Char) (hs : List Html) (h : styledRuns cfg rs i g = some hs) :
    ∀ x ∈ hs, cleanNode x = x ∧ isFigureNode x = false := by
  intro x hx
  unfold styledRuns at h
  obtain ⟨gs, _, hw⟩ := optionMap_mem h x hx
  exact ⟨clean_fixed_wrap cfg gs.1 (String.mk gs.2) x hw,
    wrapSpans_not_figure cfg gs.1 (String.mk gs.2) x hw⟩

/-- Elements of a spliced inline-content list are already clean. -/
theorem clean_fixed_segs (cfg : Config) (em : List Entity) (rs : List StyleRange) :
    ∀ (ranges : List EntityRange) (cs : List Char) (pos : Nat) (hs : List Html),
    inlineSegs cfg em rs cs pos ranges = some hs →
    ∀ x ∈ hs, cleanNode x = x := by
  intro ranges
  induction ranges with
  | nil =>
    intro cs pos hs h x hx
    exact (clean_fixed_styledRuns cfg rs pos cs hs h x hx).1
  | cons r rest ih =>
    intro cs pos hs h x hx
    unfold inlineSegs at h
    cases hgap : styledRuns cfg rs pos (cs.take (r.offset - pos)) with
    | none => rw [hgap] at h; cases h
    | some gap =>
      rw [hgap] at h
      cases hcov : styledRuns cfg rs r.offset ((cs.drop (r.offset - pos)).take r.length) with
      | none => rw [hcov] at h; cases h
      | some cov =>
        rw [hcov] at h
        cases he : em[r.key]? with
        | none => rw [he] at h; cases h
        | some e =>
          rw [he] at h
          simp only [Option.bind_eq_bind, Option.some_bind] at h
          cases hanc : spliceEntity cfg e cov with
          | none => rw [hanc] at h; simp at h
          | some anchor =>
            rw [hanc] at h
            simp only [Option.some_bind] at h
            cases htail : inlineSegs cfg em rs
                ((cs.drop (r.offset - pos)).drop r.length) (r.offset + r.length) rest with
            | none => rw [htail] at h; simp at h
            | some tail =>
              rw [htail] at h
              simp at h
              rw [← h] at hx
              rcases List.mem_append.mp hx with hx | hx
              · exact (clean_fixed_styledRuns cfg rs pos _ gap hgap x hx).1
              · rcases List.mem_cons.mp hx with hx | hx
                · subst hx
                  unfold spliceEntity at hanc
                  cases hce : convertEntity cfg e with
                  | none => rw [hce] at hanc; cases hanc
                  | some me =>
                    rw [hce] at hanc
                    cases me with
                    | text s => cases hanc
                    | element tg a kids =>
                      simp at hanc
                      rw [← hanc]
                      have hfixcov : ∀ y ∈ cov, cleanNode y = y :=
                        fun y hy => (clean_fixed_styledRuns cfg rs r.offset _ cov hcov y hy).1
                      have hnofig : cov.any isFigureNode = false :=
                        List.any_eq_false.mpr fun y hy => by
                          rw [(clean_fixed_styledRuns cfg rs r.offset _ cov hcov y hy).2]
                          simp
                      simp [cleanNode, cleanList_of_fixed cov hfixcov, hnofig]
                · exact ih _ _ tail htail x hx

/-- Exported blocks are already clean. -/
theorem clean_fixed_block (cfg : Config) (em : List Entity) (b : RawBlock)
    (t : Html) (hexp : exportBlockTree cfg em b = some t) : cleanNode t = t := by
  unfold exportBlockTree at hexp
  by_cases hb : (b.btype == "unstyled") = true
  · rw [if_pos hb] at hexp
    cases hic : inlineChildren cfg em b with
    | none => rw [hic] at hexp; cases hexp
    | some cs =>
      rw [hic] at hexp
      simp at hexp
      rw [← hexp]
      have hfix : ∀ x ∈ cs, cleanNode x = x := by
        unfold inlineChildren at hic
        exact clean_fixed_segs cfg em b.inlineStyleRanges b.entityRanges
          b.text.data 0 cs hic
      simp [cleanNode, cleanList_of_fixed cs hfix]
  · rw [if_neg hb] at hexp
    by_cases ha : (b.btype == "atomic") = true
    · rw [if_pos ha] at hexp
      cases hr : b.entityRanges with
      | nil => rw [hr] at hexp; cases hexp
      | cons r rest =>
        cases rest with
        | cons r2 rest2 => rw [hr] at hexp; cases hexp
        | nil =>
          rw [hr] at hexp
          cases he : em[r.key]? with
          | none => simp [he] at hexp
          | some e =>
            cases hm : convertEntity cfg e with
            | none => simp [he, hm] at hexp
            | some m =>
              cases hc : cssClassOf cfg e.etype with
              | none => simp [he, hm, hc] at hexp
              | some c =>
                simp [he, hm, hc] at hexp
                rw [← hexp]
                have hfm := clean_fixed_entity cfg e m hm
                by_cases hfig : isFigureNode m = true
                · simp [cleanNode, cleanList, hfm, hfig,
                    isFigure_not_text hfig, List.filter_cons]
                · have hfig' : isFigureNode m = false := by simpa using hfig
                  simp [cleanNode, cleanList, hfm, hfig']
    · rw [if_neg ha] at hexp
      cases hexp

/-- The whole export output is already clean. -/
theorem clean_fixed_exportGo (cfg : Config) (em : List Entity) :
    ∀ (blocks : List RawBlock) (fl : Bool) (ts : List Html),
    exportGo cfg em fl blocks = some ts → cleanList ts = ts := by
  intro blocks
  induction blocks with
  | nil =>
    intro fl ts h
    cases h
    rfl
  | cons b bs ih =>
    intro fl ts h
    by_cases hb : emptyU b = true
    · rw [show exportGo cfg em fl (b :: bs) =
        (exportGo cfg em true bs).map
          (fun ts => (if fl then brTag else pTag) :: ts) from by simp [exportGo, hb]] at h
      cases hrest : exportGo cfg em true bs with
      | none => rw [hrest] at h; cases h
      | some ts' =>
        rw [hrest] at h
        simp at h
        rw [← h, cleanList, ih true ts' hrest]
        cases fl <;> rfl
    · have hb' : emptyU b = false := by simpa using hb
      rw [show exportGo cfg em fl (b :: bs) =
        (exportBlockTree cfg em b).bind fun t =>
          (exportGo cfg em false bs).bind fun ts => some (t :: ts) from by
            simp [exportGo, hb']] at h
      cases hbt : exportBlockTree cfg em b with
      | none => rw [hbt] at h; cases h
      | some t =>
        rw [hbt] at h
        cases hrest : exportGo cfg em false bs with
        | none => rw [hrest] at h; cases h
        | some ts' =>
          rw [hrest] at h
          simp at h
          rw [← h, cleanList, ih false ts' hrest,
            clean_fixed_block cfg em b t hbt]

/-! ## Round trip: walker state lemmas -/

/-- Flushing: entities kept, finished-view kept, open block closed. -/
theorem flushSt_spec (st : WSt) :
    (flushSt st).ents = st.ents ∧
    (flushSt st).done ++ curList (flushSt st) = st.done ++ curList st ∧
    (flushSt st).cur = none := by
  unfold flushSt
  cases hcur : st.cur with
  | none => simp [curList, hcur]
  | some c => simp [curList, hcur]

/-- Opening a block appends one fresh block to the finished view. -/
theorem openBlock_spec (st : WSt) (t : String) :
    (openBlock st t).ents = st.ents ∧
    (openBlock st t).done = st.done ++ curList st ∧
    (openBlock st t).cur = some { btype := t } := by
  unfold openBlock
  have hf := flushSt_spec st
  refine ⟨hf.1, ?_, rfl⟩
  have : curList (flushSt st) = [] := by
    unfold curList
    rw [hf.2.2]
  rw [← hf.2.1, this, List.append_nil]

/-- Appending text to an open block. -/
theorem appendText_spec (styles : List String) (st : WSt) (s : String) (c : CurB)
    (hc : st.cur = some c) :
    appendText styles st s =
      setCur st ⟨c.btype, c.btext ++ s, c.eranges,
        c.sranges ++ styles.map fun sid =>
          { style := sid, offset := c.btext.length, length := s.length }⟩ := by
  unfold appendText setCur
  rw [hc]
  rfl

/-- Walking one span-wrapped text run appends its text to the open block,
touching nothing but the style ranges. -/
theorem walk_wrap (cfg : Config) : ∀ (g : List String) (s : String) (h : Html)
    (styles : List String) (st : WSt) (c : CurB),
    wrapSpans cfg g s = some h → st.cur = some c →
    ∃ sr, walkNode cfg false styles st h =
      setCur st ⟨c.btype, c.btext ++ s, c.eranges, sr⟩ := by
  intro g
  induction g with
  | nil =>
    intro s h styles st c hw hc
    cases hw
    exact ⟨_, appendText_spec styles st s c hc⟩
  | cons st0 sts ih =>
    intro s h styles st c hw hc
    unfold wrapSpans at hw
    cases hin : wrapSpans cfg sts s with
    | none => rw [hin] at hw; cases hw
    | some inner =>
      rw [hin] at hw
      cases hci : convertInline cfg st0 with
      | none => simp [hci] at hw
      | some x =>
        obtain ⟨a, hx⟩ := convertInline_tag cfg st0 x hci
        subst hx
        simp [hci] at hw
        rw [← hw]
        rw [show walkNode cfg false styles st (Html.element "span" a [inner]) =
          walkNode cfg false
            (convertToInline cfg "span" (Html.element "span" a [inner]) styles)
            st inner from rfl]
        exact ih s inner _ st c hin hc

/-- The run decomposition flattens back to the original characters. -/
theorem groupRuns_flatten (rs : List StyleRange) : ∀ (cs : List Char) (i : Nat),
    ((groupRuns rs i cs).map Prod.snd).flatten = cs := by
  intro cs
  induction cs with
  | nil => intro i; rfl
  | cons c rest ih =>
    intro i
    rw [groupRuns]
    cases hg : groupRuns rs (i + 1) rest with
    | nil =>
      have hr := ih (i + 1)
      rw [hg] at hr
      simp at hr
      simp [← hr]
    | cons p t =>
      obtain ⟨g, s⟩ := p
      have hr := ih (i + 1)
      rw [hg] at hr
      simp only [List.map_cons, List.flatten_cons] at hr
      by_cases he : g = activeAt rs i
      · simp [he] at hr ⊢
        simp [hr]
      · simp [he]
        simp [hr]

/-- Walking the exported inline children of a block appends exactly the
block's text to the open block. -/
theorem walk_children (cfg : Config) : ∀ (runs : List (List String × List Char))
    (cs : List Html) (styles : List String) (st : WSt) (c : CurB),
    optionMap (fun gs => wrapSpans cfg gs.1 (String.mk gs.2)) runs = some cs →
    st.cur = some c →
    ∃ sr, walkList cfg false styles st cs =
      setCur st ⟨c.btype, c.btext ++ String.mk (runs.map Prod.snd).flatten,
        c.eranges, sr⟩ := by
  intro runs
  induction runs with
  | nil =>
    intro cs styles st c hm hc
    cases hm
    refine ⟨c.sranges, ?_⟩
    rw [show walkList cfg false styles st [] = st from rfl]
    obtain ⟨done, cur, ents⟩ := st
    simp only at hc
    subst hc
    obtain ⟨bt, bx, er, sr⟩ := c
    simp [setCur, String.append_empty]
  | cons gs rest ih =>
    intro cs styles st c hm hc
    unfold optionMap at hm
    cases hw : wrapSpans cfg gs.1 (String.mk gs.2) with
    | none => rw [hw] at hm; cases hm
    | some h0 =>
      rw [hw] at hm
      cases hrest : optionMap (fun gs => wrapSpans cfg gs.1 (String.mk gs.2)) rest with
      | none => rw [hrest] at hm; cases hm
      | some cs' =>
        rw [hrest] at hm
        simp at hm
        rw [← hm]
        rw [show walkList cfg false styles st (h0 :: cs') =
          walkList cfg false styles (walkNode cfg false styles st h0) cs' from rfl]
        obtain ⟨sr1, hst1⟩ := walk_wrap cfg gs.1 (String.mk gs.2) h0 styles st c hw hc
        rw [hst1]
        obtain ⟨sr2, hst2⟩ := ih cs' styles
          (setCur st ⟨c.btype, c.btext ++ String.mk gs.2, c.eranges, sr1⟩)
          ⟨c.btype, c.btext ++ String.mk gs.2, c.eranges, sr1⟩ hrest rfl
        rw [hst2]
        refine ⟨sr2, ?_⟩
        simp only [List.map_cons, List.flatten_cons]
        rw [show c.btext ++ String.mk (gs.2 ++ (rest.map Prod.snd).flatten) =
          (c.btext ++ String.mk gs.2) ++ String.mk (rest.map Prod.snd).flatten from by
            rw [String.append_assoc]; rfl]
        rfl

/-- Walking siblings decomposes over append. -/
theorem walkList_append (cfg : Config) (inFig : Bool) (styles : List String) :
    ∀ (xs ys : List Html) (st : WSt),
    walkList cfg inFig styles st (xs ++ ys) =
      walkList cfg inFig styles (walkList cfg inFig styles st xs) ys := by
  intro xs
  induction xs with
  | nil => intro ys st; rfl
  | cons c cs ih =>
    intro ys st
    rw [List.cons_append]
    rw [show walkList cfg inFig styles st (c :: (cs ++ ys)) =
      walkList cfg inFig styles (walkNode cfg inFig styles st c) (cs ++ ys) from rfl]
    rw [ih ys (walkNode cfg inFig styles st c)]
    rfl

/-- Walking a styled-runs segment appends exactly its characters. -/
theorem walk_styledRuns (cfg : Config) (rs : List StyleRange) (i : Nat)
    (g : List Char) (hs : List Html) (styles : List String) (st : WSt) (c : CurB)
    (h : styledRuns cfg rs i g = some hs) (hc : st.cur = some c) :
    ∃ sr, walkList cfg false styles st hs =
      setCur st ⟨c.btype, c.btext ++ String.mk g, c.eranges, sr⟩ := by
  unfold styledRuns at h
  obtain ⟨sr, hst⟩ := walk_children cfg (groupRuns rs i g) hs styles st c h hc
  rw [hst, groupRuns_flatten]
  exact ⟨sr, rfl⟩

/-- Walking a spliced link anchor appends the covered text, registers one
link entity and records one range over it. -/
theorem walk_anchor (cfg : Config) (hlc : cfg.linkClassOk)
    (u : String) (x : Bool) (cov : List Html) (covChars : List Char)
    (rs : List StyleRange) (i : Nat) (styles : List String) (st : WSt) (c : CurB)
    (hcov : styledRuns cfg rs i covChars = some cov) (hc : st.cur = some c) :
    ∃ sr ln, walkNode cfg false styles st
      (Html.element "a"
        [("class", customBlockClass cfg.link.cssClass), ("href", u),
         ("target", if x then "_blank" else "_self"),
         ("rel", if x then "noopener" else "")] cov) =
      ⟨st.done, some ⟨c.btype, c.btext ++ String.mk covChars,
        c.eranges ++ [⟨st.ents.length, c.btext.length, ln⟩], sr⟩,
       st.ents ++ [⟨cfg.link.id, { url := some u, isExternal := x }⟩]⟩ := by
  have hce : convertToEntity cfg "a"
      (Html.element "a"
        [("class", customBlockClass cfg.link.cssClass), ("href", u),
         ("target", if x then "_blank" else "_self"),
         ("rel", if x then "noopener" else "")] cov) false =
      some ⟨cfg.link.id, { url := some u, isExternal := x }⟩ := by
    have hm : ¬ ("file-name" ∈ classTokens (Html.element "a"
        [("class", customBlockClass cfg.link.cssClass), ("href", u),
         ("target", if x then "_blank" else "_self"),
         ("rel", if x then "noopener" else "")] cov)) := hlc
    simp only [convertToEntity]
    rw [if_neg hm]
    cases x <;> rfl
  obtain ⟨sr, hrun⟩ := walk_styledRuns cfg rs i covChars cov styles
    (setCur (pushEnt st ⟨cfg.link.id, { url := some u, isExternal := x }⟩) c)
    c hcov rfl
  refine ⟨sr, (c.btext ++ String.mk covChars).length - c.btext.length, ?_⟩
  simp only [walkNode]
  rw [hce]
  simp only [Bool.and_false, Bool.false_eq_true, if_false, beq_self_eq_true, if_true]
  rw [hc]
  simp only [Option.getD_some]
  rw [show ({ st with
      ents := st.ents ++ [(⟨cfg.link.id, { url := some u, isExternal := x }⟩ : Entity)],
      cur := some c } : WSt) =
    setCur (pushEnt st ⟨cfg.link.id, { url := some u, isExternal := x }⟩) c from rfl]
  rw [hrun]
  rw [show (("a":String) == "figure") = false from rfl]
  simp only [Bool.false_eq_true, if_false]
  dsimp only [setCur, pushEnt]

/-- Walking the spliced inline content of a text block appends all its
text and registers, in order, one link entity per entity range with the
same kind and data. -/
theorem walk_inline (cfg : Config) (hlc : cfg.linkClassOk) (em : List Entity)
    (rs : List StyleRange) :
    ∀ (ranges : List EntityRange) (cs : List Char) (pos : Nat)
      (children : List Html) (styles : List String) (st : WSt) (c : CurB),
    inlineSegs cfg em rs cs pos ranges = some children →
    st.cur = some c →
    (∀ r ∈ ranges, wfLinkRange cfg em r) →
    ∃ sr ers newEnts,
      walkList cfg false styles st children =
        ⟨st.done, some ⟨c.btype, c.btext ++ String.mk cs, c.eranges ++ ers, sr⟩,
          st.ents ++ newEnts⟩ ∧
      ers.map (resolveRange (st.ents ++ newEnts)) = ranges.map (resolveRange em) ∧
      ∀ r' ∈ ers, r'.key < st.ents.length + newEnts.length := by
  intro ranges
  induction ranges with
  | nil =>
    intro cs pos children styles st c h hc hwfr
    obtain ⟨sr, hst⟩ := walk_styledRuns cfg rs pos cs children styles st c h hc
    refine ⟨sr, [], [], ?_, rfl, by simp⟩
    rw [hst]
    obtain ⟨done, cur, ents⟩ := st
    simp [setCur]
  | cons r rest ih =>
    intro cs pos children styles st c h hc hwfr
    obtain ⟨e, he, het, u, x, hdata⟩ := hwfr r (by simp)
    unfold inlineSegs at h
    cases hgap : styledRuns cfg rs pos (cs.take (r.offset - pos)) with
    | none => rw [hgap] at h; cases h
    | some gap =>
      rw [hgap] at h
      cases hcov : styledRuns cfg rs r.offset ((cs.drop (r.offset - pos)).take r.length) with
      | none => rw [hcov] at h; cases h
      | some cov =>
        rw [hcov] at h
        rw [he] at h
        simp only [Option.bind_eq_bind, Option.some_bind] at h
        have hanc : spliceEntity cfg e cov = some (Html.element "a"
            [("class", customBlockClass cfg.link.cssClass), ("href", u),
             ("target", if x then "_blank" else "_self"),
             ("rel", if x then "noopener" else "")] cov) := by
          unfold spliceEntity convertEntity
          rw [show (e.etype == cfg.link.id) = true from by
            rw [het]; exact beq_self_eq_true _]
          simp [hdata]
        rw [hanc] at h
        simp only [Option.some_bind] at h
        cases htail : inlineSegs cfg em rs
            ((cs.drop (r.offset - pos)).drop r.length) (r.offset + r.length) rest with
        | none => rw [htail] at h; simp at h
        | some tail =>
          rw [htail] at h
          simp at h
          rw [← h]
          rw [walkList_append]
          obtain ⟨sr1, hst1⟩ := walk_styledRuns cfg rs pos
            (cs.take (r.offset - pos)) gap styles st c hgap hc
          rw [hst1]
          rw [show walkList cfg false styles
            (setCur st ⟨c.btype, c.btext ++ String.mk (cs.take (r.offset - pos)),
              c.eranges, sr1⟩)
            (Html.element "a"
              [("class", customBlockClass cfg.link.cssClass), ("href", u),
               ("target", if x then "_blank" else "_self"),
               ("rel", if x then "noopener" else "")] cov :: tail) =
            walkList cfg false styles
              (walkNode cfg false styles
                (setCur st ⟨c.btype, c.btext ++ String.mk (cs.take (r.offset - pos)),
                  c.eranges, sr1⟩)
                (Html.element "a"
                  [("class", customBlockClass cfg.link.cssClass), ("href", u),
                   ("target", if x then "_blank" else "_self"),
                   ("rel", if x then "noopener" else "")] cov)) tail from rfl]
          obtain ⟨sr2, ln, hst2⟩ := walk_anchor cfg hlc u x cov
            ((cs.drop (r.offset - pos)).take r.length) rs r.offset styles
            (setCur st ⟨c.btype, c.btext ++ String.mk (cs.take (r.offset - pos)),
              c.eranges, sr1⟩)
            ⟨c.btype, c.btext ++ String.mk (cs.take (r.offset - pos)), c.eranges, sr1⟩
            hcov rfl
          rw [hst2]
          dsimp only [setCur]
          obtain ⟨sr3, ers3, ents3, hst3, hres3, hkeys3⟩ := ih
            ((cs.drop (r.offset - pos)).drop r.length) (r.offset + r.length)
            tail styles
            ⟨st.done, some ⟨c.btype,
              (c.btext ++ String.mk (cs.take (r.offset - pos))) ++
                String.mk ((cs.drop (r.offset - pos)).take r.length),
              c.eranges ++ [⟨st.ents.length,
                (c.btext ++ String.mk (cs.take (r.offset - pos))).length, ln⟩], sr2⟩,
              st.ents ++ [⟨cfg.link.id, { url := some u, isExternal := x }⟩]⟩
            ⟨c.btype,
              (c.btext ++ String.mk (cs.take (r.offset - pos))) ++
                String.mk ((cs.drop (r.offset - pos)).take r.length),
              c.eranges ++ [⟨st.ents.length,
                (c.btext ++ String.mk (cs.take (r.offset - pos))).length, ln⟩], sr2⟩
            htail rfl (fun r2 h2 => hwfr r2 (by simp [h2]))
          rw [hst3]
          refine ⟨sr3,
            ⟨st.ents.length,
              (c.btext ++ String.mk (cs.take (r.offset - pos))).length, ln⟩ :: ers3,
            ⟨cfg.link.id, { url := some u, isExternal := x }⟩ :: ents3, ?_, ?_, ?_⟩
          · simp only [WSt.mk.injEq]
            refine ⟨trivial, ?_, ?_⟩
            · simp only [Option.some.injEq, CurB.mk.injEq]
              refine ⟨trivial, ?_, ?_, trivial⟩
              · rw [show (c.btext ++ String.mk (cs.take (r.offset - pos))) ++
                  String.mk ((cs.drop (r.offset - pos)).take r.length) ++
                  String.mk ((cs.drop (r.offset - pos)).drop r.length) =
                  c.btext ++ (String.mk (cs.take (r.offset - pos)) ++
                    (String.mk ((cs.drop (r.offset - pos)).take r.length) ++
                      String.mk ((cs.drop (r.offset - pos)).drop r.length))) from by
                    rw [String.append_assoc, String.append_assoc]]
                rw [show String.mk ((cs.drop (r.offset - pos)).take r.length) ++
                  String.mk ((cs.drop (r.offset - pos)).drop r.length) =
                  String.mk ((cs.drop (r.offset - pos)).take r.length ++
                    (cs.drop (r.offset - pos)).drop r.length) from rfl]
                rw [List.take_append_drop]
                rw [show String.mk (cs.take (r.offset - pos)) ++
                  String.mk (cs.drop (r.offset - pos)) =
                  String.mk (cs.take (r.offset - pos) ++ cs.drop (r.offset - pos)) from rfl]
                rw [List.take_append_drop]
              · rw [List.append_assoc]
                rfl
            · rw [List.append_assoc]
              rfl
          · simp only [List.map_cons, List.cons.injEq]
            constructor
            · unfold resolveRange
              rw [show (st.ents ++
                (⟨cfg.link.id, { url := some u, isExternal := x }⟩ : Entity) ::
                  ents3)[st.ents.length]? =
                some ⟨cfg.link.id, { url := some u, isExternal := x }⟩ from by
                  rw [List.getElem?_append]
                  simp]
              rw [he]
              show (cfg.link.id, ({ url := some u, isExternal := x } : EntityData)) =
                (e.etype, e.data)
              rw [het, hdata]
            · rw [← hres3]
              apply List.map_congr_left
              intro r2 h2
              unfold resolveRange
              rw [show st.ents ++
                (⟨cfg.link.id, { url := some u, isExternal := x }⟩ : Entity) :: ents3 =
                (st.ents ++ [⟨cfg.link.id, { url := some u, isExternal := x }⟩]) ++
                  ents3 from by rw [List.append_assoc, List.singleton_append]]
          · intro r2 h2
            rcases List.mem_cons.mp h2 with h2 | h2
            · rw [h2]
              show st.ents.length < st.ents.length + (ents3.length + 1)
              omega
            · have := hkeys3 r2 h2
              simp at this ⊢
              omega

/-- A `<figure>` met inside a figure subtree is structural: descend. -/
theorem walkNode_figure_in (cfg : Config) (styles : List String) (st : WSt)
    (attrs : List (String × String)) (cs : List Html) :
    walkNode cfg true styles st (Html.element "figure" attrs cs) =
      walkList cfg true styles st cs := rfl

/-- A top-level `<figure>` opens an atomic block and descends. -/
theorem walkNode_figure_out (cfg : Config) (styles : List String) (st : WSt)
    (attrs : List (String × String)) (cs : List Html) :
    walkNode cfg false styles st (Html.element "figure" attrs cs) =
      walkList cfg true styles (openBlock st "atomic") cs := rfl

/-- An entity-classified element met inside the open atomic block fills it. -/
theorem walkNode_entity_hit (cfg : Config) (styles : List String)
    (st : WSt) (tag : String) (attrs : List (String × String)) (cs : List Html)
    (e : Entity)
    (hne : tag ≠ "figure")
    (hce : convertToEntity cfg tag (Html.element tag attrs cs) true = some e)
    (hat : curIsAtomic st = true) :
    walkNode cfg true styles st (Html.element tag attrs cs) = fillAtomic st e := by
  have hb : (tag == "figure") = false := beq_eq_false_iff_ne.mpr hne
  simp only [walkNode]
  simp [hb, hce, hat]

/-- An unclassified element descends with the updated style set. -/
theorem walkNode_descend (cfg : Config) (inFig : Bool) (styles : List String)
    (st : WSt) (tag : String) (attrs : List (String × String)) (cs : List Html)
    (hne : tag ≠ "figure")
    (hce : convertToEntity cfg tag (Html.element tag attrs cs) inFig = none)
    (hcb : convertToBlock tag (Html.element tag attrs cs) = none) :
    walkNode cfg inFig styles st (Html.element tag attrs cs) =
      walkList cfg inFig
        (convertToInline cfg tag (Html.element tag attrs cs) styles) st cs := by
  have hb : (tag == "figure") = false := beq_eq_false_iff_ne.mpr hne
  simp only [walkNode]
  simp [hb, hce, hcb]

/-- A `<br>` produces nothing on import. -/
theorem walkNode_br (cfg : Config) (styles : List String) (st : WSt) :
    walkNode cfg false styles st brTag = st := rfl

/-- An empty `<p></p>` opens a fresh empty `unstyled` block. -/
theorem walkNode_pTag (cfg : Config) (styles : List String) (st : WSt) :
    walkNode cfg false styles st pTag = openBlock st "unstyled" := rfl

/-- Re-importing the exported table row markup recovers the rows. -/
theorem assembleRows_export (rows : List (List String)) :
    assembleRows (Html.element "table" []
      (rows.map fun r => Html.element "tr" []
        (r.map fun c => Html.element "td" [] [Html.text c]))) = rows := by
  show (rows.map fun r => Html.element "tr" []
    (r.map fun c => Html.element "td" [] [Html.text c])).filterMap rowCells = rows
  induction rows with
  | nil => rfl
  | cons r rest ih =>
    rw [List.map_cons, List.filterMap_cons]
    rw [show rowCells (Html.element "tr" []
        (r.map fun c => Html.element "td" [] [Html.text c])) =
        some ((r.map fun c => Html.element "td" [] [Html.text c]).map cellText) from rfl]
    rw [ih]
    have hcell : (r.map fun c => Html.element "td" [] [Html.text c]).map cellText = r := by
      induction r with
      | nil => rfl
      | cons a t iha => rw [List.map_cons, List.map_cons, iha]; rfl
    rw [hcell]

/-- Eta rule for entities with known kind and data. -/
theorem entity_eta (e : Entity) (t : String) (d : EntityData)
    (ht : e.etype = t) (hd : e.data = d) : (⟨t, d⟩ : Entity) = e := by
  cases e
  simp only at ht hd
  rw [ht, hd]

/-- Walking the §4.2 markup of a well-formed entity inside an open atomic
block registers an entity with the same kind and data and fills the block
with the placeholder character. -/
theorem walk_atomic (cfg : Config) (hd : cfg.entityIdsDistinct) (e : Entity)
    (m : Html) (hwf : wfEntity cfg e) (hm : convertEntity cfg e = some m)
    (styles : List String) (st : WSt) (c : CurB)
    (hc : st.cur = some c) (hca : c.btype = "atomic") :
    walkList cfg true styles st [m] = fillAtomic st e := by
  obtain ⟨d1, d2, d3, d4, d5, d6, d7, d8, d9, d10, d11, d12, d13, d14, d15⟩ := hd
  have hat : curIsAtomic st = true := by
    simp [curIsAtomic, hc, hca]
  rw [show walkList cfg true styles st [m] = walkNode cfg true styles st m from rfl]
  unfold convertEntity at hm
  rcases hwf with ⟨ht, s, hdata⟩ | ⟨ht, s, n, hdata⟩ | ⟨ht, s, hdata⟩ | ⟨ht, hdata⟩ |
    ⟨ht, rows, hdata⟩
  · -- photo entity: figure wrapper around an img
    rw [beq_eq_false_iff_ne.mpr (ht ▸ d1.symm),
      beq_eq_false_iff_ne.mpr (ht ▸ d7)] at hm
    simp only [Bool.false_eq_true, if_false] at hm
    rw [show (e.etype == cfg.photo.id) = true from by
      rw [ht]; exact beq_self_eq_true _] at hm
    simp only [if_true, hdata] at hm
    simp at hm
    rw [← hm, walkNode_figure_in]
    rw [show walkList cfg true styles st
      [Html.element "img" [("src", s)] []] =
      walkNode cfg true styles st (Html.element "img" [("src", s)] []) from rfl]
    rw [walkNode_entity_hit cfg styles st "img" [("src", s)] []
      ⟨cfg.photo.id, { src := some s }⟩ (by decide) rfl hat]
    rw [entity_eta e cfg.photo.id { src := some s } ht hdata]
  · -- file entity: figure wrapper around the Document anchor
    rw [beq_eq_false_iff_ne.mpr (ht ▸ d2.symm),
      beq_eq_false_iff_ne.mpr (ht ▸ d10),
      beq_eq_false_iff_ne.mpr (ht ▸ d6.symm)] at hm
    simp only [Bool.false_eq_true, if_false] at hm
    rw [show (e.etype == cfg.file.id) = true from by
      rw [ht]; exact beq_self_eq_true _] at hm
    simp only [if_true, hdata] at hm
    simp [Document, truthy] at hm
    rw [← hm, walkNode_figure_in]
    rw [show walkList cfg true styles st
      [Html.element "a" [("class", "file-name"), ("href", s), ("download", n)]
        [Html.text n]] =
      walkNode cfg true styles st (Html.element "a"
        [("class", "file-name"), ("href", s), ("download", n)] [Html.text n]) from rfl]
    rw [walkNode_entity_hit cfg styles st "a"
      [("class", "file-name"), ("href", s), ("download", n)] [Html.text n]
      ⟨cfg.file.id, { src := some s, name := some n }⟩ (by decide) rfl hat]
    rw [entity_eta e cfg.file.id { src := some s, name := some n } ht hdata]
  · -- rich entity: figure wrapper around div/iframe
    rw [beq_eq_false_iff_ne.mpr (ht ▸ d4.symm),
      beq_eq_false_iff_ne.mpr (ht ▸ d13.symm),
      beq_eq_false_iff_ne.mpr (ht ▸ d8.symm),
      beq_eq_false_iff_ne.mpr (ht ▸ d11.symm)] at hm
    simp only [Bool.false_eq_true, if_false] at hm
    rw [show (e.etype == cfg.rich.id) = true from by
      rw [ht]; exact beq_self_eq_true _] at hm
    simp only [if_true, hdata] at hm
    simp at hm
    rw [← hm, walkNode_figure_in]
    rw [show walkList cfg true styles st
      [Html.element "div" [("class", "rich-media-wrapper")]
        [Html.element "iframe"
          [("src", s), ("frameborder", "0"), ("allowfullscreen", "")] []]] =
      walkNode cfg true styles st (Html.element "div" [("class", "rich-media-wrapper")]
        [Html.element "iframe"
          [("src", s), ("frameborder", "0"), ("allowfullscreen", "")] []]) from rfl]
    rw [walkNode_descend cfg true styles st "div" [("class", "rich-media-wrapper")]
      [Html.element "iframe"
        [("src", s), ("frameborder", "0"), ("allowfullscreen", "")] []]
      (by decide) rfl rfl]
    rw [show walkList cfg true
      (convertToInline cfg "div" (Html.element "div" [("class", "rich-media-wrapper")]
        [Html.element "iframe"
          [("src", s), ("frameborder", "0"), ("allowfullscreen", "")] []]) styles) st
      [Html.element "iframe"
        [("src", s), ("frameborder", "0"), ("allowfullscreen", "")] []] =
      walkNode cfg true
        (convertToInline cfg "div" (Html.element "div" [("class", "rich-media-wrapper")]
          [Html.element "iframe"
            [("src", s), ("frameborder", "0"), ("allowfullscreen", "")] []]) styles) st
        (Html.element "iframe"
          [("src", s), ("frameborder", "0"), ("allowfullscreen", "")] []) from rfl]
    rw [walkNode_entity_hit cfg _ st "iframe"
      [("src", s), ("frameborder", "0"), ("allowfullscreen", "")] []
      ⟨cfg.rich.id, { src := some s }⟩ (by decide) rfl hat]
    rw [entity_eta e cfg.rich.id { src := some s } ht hdata]
  · -- divider entity: a bare hr
    rw [beq_eq_false_iff_ne.mpr (ht ▸ d3.symm)] at hm
    simp only [Bool.false_eq_true, if_false] at hm
    rw [show (e.etype == cfg.divider.id) = true from by
      rw [ht]; exact beq_self_eq_true _] at hm
    simp only [if_true] at hm
    simp at hm
    rw [← hm]
    rw [walkNode_entity_hit cfg styles st "hr" [] []
      ⟨cfg.divider.id, {} ⟩ (by decide) rfl hat]
    rw [entity_eta e cfg.divider.id {} ht hdata]
  · -- table entity: figure wrapper around the row markup
    rw [beq_eq_false_iff_ne.mpr (ht ▸ d5.symm),
      beq_eq_false_iff_ne.mpr (ht ▸ d14.symm),
      beq_eq_false_iff_ne.mpr (ht ▸ d9.symm),
      beq_eq_false_iff_ne.mpr (ht ▸ d12.symm),
      beq_eq_false_iff_ne.mpr (ht ▸ d15.symm)] at hm
    simp only [Bool.false_eq_true, if_false] at hm
    rw [show (e.etype == cfg.table.id) = true from by
      rw [ht]; exact beq_self_eq_true _] at hm
    simp only [if_true, hdata] at hm
    simp at hm
    rw [← hm, walkNode_figure_in]
    rw [show walkList cfg true styles st
      [Html.element "table" [] (rows.map fun r => Html.element "tr" []
        (r.map fun c => Html.element "td" [] [Html.text c]))] =
      walkNode cfg true styles st (Html.element "table" []
        (rows.map fun r => Html.element "tr" []
          (r.map fun c => Html.element "td" [] [Html.text c]))) from rfl]
    rw [walkNode_entity_hit cfg styles st "table" []
      (rows.map fun r => Html.element "tr" []
        (r.map fun c => Html.element "td" [] [Html.text c]))
      ⟨cfg.table.id, { rows := rows }⟩ (by decide)
      (by
        rw [show convertToEntity cfg "table" (Html.element "table" []
          (rows.map fun r => Html.element "tr" []
            (r.map fun c => Html.element "td" [] [Html.text c]))) true =
          some ⟨cfg.table.id, { rows := assembleRows (Html.element "table" []
            (rows.map fun r => Html.element "tr" []
              (r.map fun c => Html.element "td" [] [Html.text c]))) }⟩ from rfl]
        rw [assembleRows_export])
      hat]
    rw [entity_eta e cfg.table.id { rows := rows } ht hdata]

/-! ## Round trip: signature bookkeeping -/

/-- Projections of `setCur`. -/
theorem setCur_done (st : WSt) (c : CurB) : (setCur st c).done = st.done := rfl

/-- Entities of `setCur`. -/
theorem setCur_ents (st : WSt) (c : CurB) : (setCur st c).ents = st.ents := rfl

/-- Open-block view of `setCur`. -/
theorem curList_setCur (st : WSt) (c : CurB) :
    curList (setCur st c) = [closeBlock c] := rfl

/-- Projections of `pushEnt`. -/
theorem pushEnt_done (st : WSt) (e : Entity) : (pushEnt st e).done = st.done := rfl

/-- Entities of `pushEnt`. -/
theorem pushEnt_ents (st : WSt) (e : Entity) :
    (pushEnt st e).ents = st.ents ++ [e] := rfl

/-- Open-block view of `pushEnt`. -/
theorem curList_pushEnt (st : WSt) (e : Entity) :
    curList (pushEnt st e) = curList st := rfl

/-- Entity-range resolution ignores appended entities for in-range keys. -/
theorem blockSig_ext (em ex : List Entity) (b : RawBlock)
    (h : ∀ r ∈ b.entityRanges, r.key < em.length) :
    blockSig (em ++ ex) b = blockSig em b := by
  unfold blockSig
  simp only [BlockSig.mk.injEq, true_and]
  apply List.map_congr_left
  intro r hr
  unfold resolveRange
  rw [List.getElem?_append, if_pos (h r hr)]

/-- Document signatures ignore appended entities for in-range keys. -/
theorem docSig_ext (em ex : List Entity) (bs : List RawBlock)
    (h : ∀ b ∈ bs, ∀ r ∈ b.entityRanges, r.key < em.length) :
    docSig (em ++ ex) bs = docSig em bs := by
  unfold docSig
  exact List.map_congr_left fun b hb => blockSig_ext em ex b (h b hb)

/-- Document signatures split over block-list append. -/
theorem docSig_append (em : List Entity) (xs ys : List RawBlock) :
    docSig em (xs ++ ys) = docSig em xs ++ docSig em ys := by
  unfold docSig
  exact List.map_append _ _ _

/-- `afterSigs` after opening a block appends one fresh empty signature. -/
theorem afterSigs_openBlock (st : WSt) (t : String) :
    afterSigs (openBlock st t) = afterSigs st ++ [⟨t, "", []⟩] := by
  obtain ⟨he, hd, hc⟩ := openBlock_spec st t
  unfold afterSigs
  rw [he, hd]
  unfold curList
  rw [hc]
  rw [docSig_append]
  rfl

/-- Opening a block preserves the key invariant. -/
theorem StOK_openBlock (st : WSt) (t : String) (h : StOK st) : StOK (openBlock st t) := by
  obtain ⟨he, hd, hc⟩ := openBlock_spec st t
  unfold StOK at h ⊢
  rw [he, hd]
  unfold curList
  rw [hc]
  intro b hb r hr
  rcases List.mem_append.mp hb with hb | hb
  · exact h b hb r hr
  · simp at hb
    subst hb
    simp [closeBlock] at hr

/-- `fillAtomic` on an open block, explicitly. -/
theorem fillAtomic_spec (st : WSt) (e : Entity) (c : CurB) (hc : st.cur = some c) :
    fillAtomic st e = setCur (pushEnt st e)
      ⟨c.btype, " ", [⟨st.ents.length, 0, 1⟩], c.sranges⟩ := by
  unfold fillAtomic setCur pushEnt
  rw [hc]

/-- Filling a freshly opened atomic block: one atomic signature carrying
exactly the registered entity's kind and data. -/
theorem fill_open_spec (st : WSt) (e : Entity) (hok : StOK st) :
    afterSigs (fillAtomic (openBlock st "atomic") e) =
      afterSigs st ++ [⟨"atomic", " ", [(e.etype, e.data)]⟩] ∧
    StOK (fillAtomic (openBlock st "atomic") e) := by
  obtain ⟨he, hd, hc⟩ := openBlock_spec st "atomic"
  rw [fillAtomic_spec (openBlock st "atomic") e ⟨"atomic", "", [], []⟩ hc]
  constructor
  · unfold afterSigs
    rw [setCur_ents, curList_setCur, setCur_done, pushEnt_ents, pushEnt_done, he, hd]
    rw [docSig_append, docSig_ext st.ents [e] (st.done ++ curList st) hok]
    congr 1
    unfold docSig blockSig closeBlock resolveRange
    simp [List.getElem?_concat_length]
  · unfold StOK
    rw [setCur_ents, curList_setCur, setCur_done, pushEnt_ents, pushEnt_done, he, hd]
    intro b hb r hr
    rcases List.mem_append.mp hb with hb | hb
    · have := hok b hb r hr
      simp
      omega
    · simp at hb
      subst hb
      simp [closeBlock] at hr
      subst hr
      simp

/-- Opening a block and filling its text: one signature appended. -/
theorem setCur_open_spec (st : WSt) (t0 : String) (c : CurB)
    (her : c.eranges = []) (hok : StOK st) :
    afterSigs (setCur (openBlock st t0) c) =
      afterSigs st ++ [⟨c.btype, c.btext, []⟩] ∧
    StOK (setCur (openBlock st t0) c) := by
  obtain ⟨he, hd, _⟩ := openBlock_spec st t0
  constructor
  · unfold afterSigs
    rw [setCur_ents, curList_setCur, setCur_done, he, hd, docSig_append]
    congr 1
    unfold docSig blockSig closeBlock
    simp [her]
  · unfold StOK
    rw [setCur_ents, curList_setCur, setCur_done, he, hd]
    intro b hb r hr
    rcases List.mem_append.mp hb with hb | hb
    · exact hok b hb r hr
    · simp at hb
      subst hb
      simp [closeBlock, her] at hr

/-- Inversion of export for an `unstyled` block. -/
theorem exportBlockTree_unstyled_inv (cfg : Config) (em : List Entity)
    (b : RawBlock) (t : Html) (hb : b.btype = "unstyled")
    (h : exportBlockTree cfg em b = some t) :
    ∃ cs, inlineChildren cfg em b = some cs ∧ t = Html.element "p" [] cs := by
  unfold exportBlockTree at h
  rw [hb] at h
  cases hic : inlineChildren cfg em b with
  | none => rw [hic] at h; simp at h
  | some cs =>
    rw [hic] at h
    simp at h
    exact ⟨cs, rfl, h.symm⟩

/-- Inversion of export for an `atomic` block. -/
theorem exportBlockTree_atomic_inv (cfg : Config) (em : List Entity)
    (b : RawBlock) (t : Html) (hb : b.btype = "atomic")
    (h : exportBlockTree cfg em b = some t) :
    ∃ r e m cls, b.entityRanges = [r] ∧ em[r.key]? = some e ∧
      convertEntity cfg e = some m ∧ cssClassOf cfg e.etype = some cls ∧
      t = Html.element "figure" [("class", "atomic " ++ cls ++ "-block")] [m] := by
  unfold exportBlockTree at h
  rw [hb] at h
  simp at h
  cases hr : b.entityRanges with
  | nil => rw [hr] at h; simp at h
  | cons r rest =>
    cases rest with
    | cons r2 rest2 => rw [hr] at h; simp at h
    | nil =>
      rw [hr] at h
      cases he : em[r.key]? with
      | none => simp [he] at h
      | some e =>
        cases hm : convertEntity cfg e with
        | none => simp [he, hm] at h
        | some m =>
          cases hcls : cssClassOf cfg e.etype with
          | none => simp [he, hm, hcls] at h
          | some cls =>
            simp [he, hm, hcls] at h
            exact ⟨r, e, m, cls, rfl, he, hm, hcls, h.symm⟩

/-- Walking an exported `unstyled` block's `<p>` opens an `unstyled`
block holding exactly the block's text and registers, in order, one link
entity per entity range of the block with matching kind and data. -/
theorem walk_p (cfg : Config) (hlc : cfg.linkClassOk) (em : List Entity)
    (b : RawBlock) (cs : List Html) (styles : List String) (st : WSt)
    (hic : inlineChildren cfg em b = some cs)
    (hwfr : ∀ r ∈ b.entityRanges, wfLinkRange cfg em r) :
    ∃ sr ers newEnts,
      walkNode cfg false styles st (Html.element "p" [] cs) =
        ⟨(openBlock st "unstyled").done, some ⟨"unstyled", b.text, ers, sr⟩,
          st.ents ++ newEnts⟩ ∧
      ers.map (resolveRange (st.ents ++ newEnts)) =
        b.entityRanges.map (resolveRange em) ∧
      ∀ r' ∈ ers, r'.key < st.ents.length + newEnts.length := by
  rw [show walkNode cfg false styles st (Html.element "p" [] cs) =
    walkList cfg false styles (openBlock st "unstyled") cs from rfl]
  unfold inlineChildren at hic
  obtain ⟨sr, ers, newEnts, hst, hres, hkeys⟩ := walk_inline cfg hlc em
    b.inlineStyleRanges b.entityRanges b.text.data 0 cs styles
    (openBlock st "unstyled") ⟨"unstyled", "", [], []⟩ hic rfl hwfr
  rw [hst]
  rw [(openBlock_spec st "unstyled").1] at hres hkeys ⊢
  exact ⟨sr, ers, newEnts, rfl, hres, hkeys⟩

/-- Opening a block, filling it and appending fresh entities: one
signature appended, resolved against the extended entity map. -/
theorem setCur_open_ents_spec (st : WSt) (bt tx : String)
    (ers : List EntityRange) (sr : List StyleRange) (ex : List Entity)
    (hok : StOK st)
    (hkeys : ∀ r ∈ ers, r.key < st.ents.length + ex.length) :
    afterSigs ⟨(openBlock st "unstyled").done, some ⟨bt, tx, ers, sr⟩,
      st.ents ++ ex⟩ =
      afterSigs st ++ [⟨bt, tx, ers.map (resolveRange (st.ents ++ ex))⟩] ∧
    StOK ⟨(openBlock st "unstyled").done, some ⟨bt, tx, ers, sr⟩,
      st.ents ++ ex⟩ := by
  obtain ⟨he, hdn, hc⟩ := openBlock_spec st "unstyled"
  constructor
  · rw [show afterSigs ⟨(openBlock st "unstyled").done, some ⟨bt, tx, ers, sr⟩,
      st.ents ++ ex⟩ =
      docSig (st.ents ++ ex) ((openBlock st "unstyled").done ++
        [closeBlock ⟨bt, tx, ers, sr⟩]) from rfl]
    rw [hdn, docSig_append]
    rw [docSig_ext st.ents ex (st.done ++ curList st) hok]
    rfl
  · intro b hb r hr
    rw [show ((⟨(openBlock st "unstyled").done, some ⟨bt, tx, ers, sr⟩,
      st.ents ++ ex⟩ : WSt).done ++
      curList ⟨(openBlock st "unstyled").done, some ⟨bt, tx, ers, sr⟩,
        st.ents ++ ex⟩ : List RawBlock) =
      (st.done ++ curList st) ++ [closeBlock ⟨bt, tx, ers, sr⟩] from by
        rw [← hdn]; rfl] at hb
    rcases List.mem_append.mp hb with hb | hb
    · have hlt := hok b hb r hr
      show r.key < (st.ents ++ ex).length
      simp only [List.length_append]
      omega
    · simp at hb
      subst hb
      simp [closeBlock] at hr
      have hlt := hkeys r hr
      show r.key < (st.ents ++ ex).length
      simp only [List.length_append]
      omega

/-- Walking the export of a block list appends, in order, the signatures
of the blank-line-collapsed blocks. -/
theorem walk_export (cfg : Config) (hd : cfg.entityIdsDistinct)
    (hlc : cfg.linkClassOk) (em : List Entity) :
    ∀ (blocks : List RawBlock) (fl : Bool) (ts : List Html) (st : WSt),
    (∀ b ∈ blocks, wfBlock cfg em b) →
    exportGo cfg em fl blocks = some ts →
    StOK st →
    afterSigs (walkList cfg false [] st ts) =
      afterSigs st ++ docSig em (collapseGo fl blocks) ∧
    StOK (walkList cfg false [] st ts) := by
  intro blocks
  induction blocks with
  | nil =>
    intro fl ts st hwf hexp hok
    simp [exportGo] at hexp
    subst hexp
    refine ⟨?_, hok⟩
    simp [collapseGo, docSig]
    rfl
  | cons b bs ih =>
    intro fl ts st hwf hexp hok
    by_cases hb : emptyU b = true
    · rw [show exportGo cfg em fl (b :: bs) =
        (exportGo cfg em true bs).map
          (fun ts => (if fl then brTag else pTag) :: ts) from by
            simp [exportGo, hb]] at hexp
      cases hrest : exportGo cfg em true bs with
      | none => rw [hrest] at hexp; cases hexp
      | some ts' =>
        rw [hrest] at hexp
        simp at hexp
        rw [← hexp]
        have hbu : b.btype = "unstyled" := by
          have := hb
          simp [emptyU] at this
          exact this.1
        have hbt : b.text = "" := by
          have := hb
          simp [emptyU] at this
          exact this.2
        cases fl with
        | true =>
          rw [show walkList cfg false [] st ((if true then brTag else pTag) :: ts') =
            walkList cfg false [] st ts' from rfl]
          have hca : collapseGo true (b :: bs) = collapseGo true bs := by
            simp [collapseGo, hb]
          rw [hca]
          exact ih true ts' st (fun x hx => hwf x (by simp [hx])) hrest hok
        | false =>
          rw [show walkList cfg false [] st ((if false then brTag else pTag) :: ts') =
            walkList cfg false [] (openBlock st "unstyled") ts' from rfl]
          obtain ⟨ihsig, ihok⟩ := ih true ts' (openBlock st "unstyled")
            (fun x hx => hwf x (by simp [hx])) hrest (StOK_openBlock st "unstyled" hok)
          refine ⟨?_, ihok⟩
          rw [ihsig, afterSigs_openBlock]
          have hca : collapseGo false (b :: bs) = b :: collapseGo true bs := by
            simp [collapseGo, hb]
          rw [hca]
          have her : b.entityRanges = [] := by
            rcases hwf b (by simp) with ⟨_, _, _, himp⟩ | ⟨hba, _⟩
            · exact himp hbt
            · rw [hbu] at hba
              exact absurd hba (by decide)
          rw [show docSig em (b :: collapseGo true bs) =
            blockSig em b :: docSig em (collapseGo true bs) from rfl]
          rw [show blockSig em b = ⟨"unstyled", "", []⟩ from by
            unfold blockSig
            rw [hbu, hbt, her]
            rfl]
          simp
    · have hb' : emptyU b = false := by simpa using hb
      rw [show exportGo cfg em fl (b :: bs) = (exportBlockTree cfg em b).bind fun t =>
        (exportGo cfg em false bs).bind fun ts => some (t :: ts) from by
          simp [exportGo, hb']] at hexp
      cases hbt : exportBlockTree cfg em b with
      | none => rw [hbt] at hexp; cases hexp
      | some t =>
        rw [hbt] at hexp
        cases hrest : exportGo cfg em false bs with
        | none => rw [hrest] at hexp; cases hexp
        | some ts' =>
          rw [hrest] at hexp
          simp at hexp
          rw [← hexp]
          have hcoll : collapseGo fl (b :: bs) = b :: collapseGo false bs := by
            simp [collapseGo, hb']
          rcases hwf b (by simp) with ⟨hbu, halign, hwfr, _⟩ |
            ⟨hba, htext, _, r, her, e, he, hwfe⟩
          · obtain ⟨cs, hic, htp⟩ := exportBlockTree_unstyled_inv cfg em b t hbu hbt
            subst htp
            rw [show walkList cfg false [] st (Html.element "p" [] cs :: ts') =
              walkList cfg false []
                (walkNode cfg false [] st (Html.element "p" [] cs)) ts' from rfl]
            obtain ⟨sr, ers, newEnts, hwp, hres, hkeys⟩ :=
              walk_p cfg hlc em b cs [] st hic hwfr
            rw [hwp]
            obtain ⟨hsig, hok'⟩ := setCur_open_ents_spec st "unstyled" b.text
              ers sr newEnts hok hkeys
            obtain ⟨ihsig, ihok⟩ := ih false ts' _
              (fun x hx => hwf x (by simp [hx])) hrest hok'
            refine ⟨?_, ihok⟩
            rw [ihsig, hsig, hcoll, hres]
            rw [show docSig em (b :: collapseGo false bs) =
              blockSig em b :: docSig em (collapseGo false bs) from rfl]
            rw [show blockSig em b =
              ⟨"unstyled", b.text, b.entityRanges.map (resolveRange em)⟩ from by
              unfold blockSig
              rw [hbu]]
            simp
          · obtain ⟨r', e', m, cls, her', he', hm, hcls, htf⟩ :=
              exportBlockTree_atomic_inv cfg em b t hba hbt
            rw [her] at her'
            injection her' with h1 h2
            have he2 : em[r.key]? = some e' := by
              rw [h1]
              exact he'
            rw [he] at he2
            injection he2 with hee
            have hm2 : convertEntity cfg e = some m := by
              rw [hee]
              exact hm
            subst htf
            rw [show walkList cfg false []
              st (Html.element "figure"
                [("class", "atomic " ++ cls ++ "-block")] [m] :: ts') =
              walkList cfg false []
                (walkNode cfg false [] st (Html.element "figure"
                  [("class", "atomic " ++ cls ++ "-block")] [m])) ts' from rfl]
            rw [walkNode_figure_out]
            rw [walk_atomic cfg hd e m hwfe hm2 [] (openBlock st "atomic")
              ⟨"atomic", "", [], []⟩ (openBlock_spec st "atomic").2.2 rfl]
            obtain ⟨hsig, hok'⟩ := fill_open_spec st e hok
            obtain ⟨ihsig, ihok⟩ := ih false ts' _
              (fun x hx => hwf x (by simp [hx])) hrest hok'
            refine ⟨?_, ihok⟩
            rw [ihsig, hsig, hcoll]
            rw [show docSig em (b :: collapseGo false bs) =
              blockSig em b :: docSig em (collapseGo false bs) from rfl]
            rw [show blockSig em b = ⟨"atomic", " ", [(e.etype, e.data)]⟩ from by
              unfold blockSig
              rw [hba, htext, her]
              simp [resolveRange, he]]
            simp

/-- Collapsing a nonempty document is nonempty. -/
theorem collapse_ne (b : RawBlock) (bs : List RawBlock) : collapse (b :: bs) ≠ [] := by
  unfold collapse
  by_cases hb : emptyU b = true <;> simp [collapseGo, hb]

/-- The initial walker state satisfies the key invariant. -/
theorem StOK_init : StOK ({} : WSt) := by
  intro b hb
  simp [curList] at hb

/-- After the final flush, the finished blocks realize `afterSigs`. -/
theorem flush_final (st : WSt) :
    docSig (flushSt st).ents (flushSt st).done = afterSigs st := by
  obtain ⟨he, hblocks, hc⟩ := flushSt_spec st
  unfold afterSigs
  rw [he, ← hblocks]
  have hnil : curList (flushSt st) = [] := by
    unfold curList
    rw [hc]
  rw [hnil, List.append_nil]

/-- C1: importing the export of any well-formed document preserves, block
for block up to the blank-line folding rule, the block type, the text
content, and the kind and data of every referenced entity. -/
theorem round_trip (cfg : Config) (em : List Entity) (blocks : List RawBlock)
    (ts : List Html)
    (hd : cfg.entityIdsDistinct)
    (hlc : cfg.linkClassOk)
    (hwf : ∀ b ∈ blocks, wfBlock cfg em b)
    (hne : blocks ≠ [])
    (hexp : exportTrees cfg em blocks = some ts) :
    docSig (convertFromHTML cfg (cleanList ts)).2
      (convertFromHTML cfg (cleanList ts)).1 =
      docSig em (collapse blocks) := by
  have hclean : cleanList ts = ts := clean_fixed_exportGo cfg em blocks false ts hexp
  rw [hclean]
  unfold convertFromHTML
  obtain ⟨hsig, _⟩ := walk_export cfg hd hlc em blocks false ts {} hwf hexp StOK_init
  have hinit : afterSigs ({} : WSt) = [] := rfl
  rw [hinit, List.nil_append] at hsig
  have hdone : docSig (flushSt (walkList cfg false [] {} ts)).ents
      (flushSt (walkList cfg false [] {} ts)).done = docSig em (collapse blocks) := by
    rw [flush_final, hsig]
    rfl
  have hnonempty : (flushSt (walkList cfg false [] {} ts)).done ≠ [] := by
    intro h0
    rw [h0] at hdone
    cases blocks with
    | nil => exact hne rfl
    | cons b bs =>
      have hc := collapse_ne b bs
      have : collapse (b :: bs) = [] := by
        have := hdone.symm
        unfold docSig at this
        exact List.map_eq_nil_iff.mp this
      exact hc this
  have hie : (flushSt (walkList cfg false [] {} ts)).done.isEmpty = false := by
    cases hh : (flushSt (walkList cfg false [] {} ts)).done.isEmpty
    · rfl
    · exact absurd (List.isEmpty_iff.mp hh) hnonempty
  simp only [hie, Bool.false_eq_true, if_false]
  exact hdone

/-- C1 witness: the round trip at a document of one `unstyled` block
carrying a link entity range over part of its text followed by one atomic
table block. -/
theorem round_trip_witness :
    docSig (convertFromHTML TOOLBAR_DEFAULTS (cleanList
        [Html.element "p" []
          [Html.text "hi ",
           Html.element "a"
             [("class", "content-editor__custom-block link"), ("href", "test.com"),
              ("target", "_self"), ("rel", "")]
             [Html.text "there"]],
         Html.element "figure" [("class", "atomic table-block")]
          [Html.element "figure" [("class", "content-editor__custom-block table")]
            [Html.element "table" []
              [Html.element "tr" []
                [Html.element "td" [] [Html.text "a"],
                 Html.element "td" [] [Html.text "b"]],
               Html.element "tr" [] [Html.element "td" [] [Html.text "c"]]]]]])).2
      (convertFromHTML TOOLBAR_DEFAULTS (cleanList
        [Html.element "p" []
          [Html.text "hi ",
           Html.element "a"
             [("class", "content-editor__custom-block link"), ("href", "test.com"),
              ("target", "_self"), ("rel", "")]
             [Html.text "there"]],
         Html.element "figure" [("class", "atomic table-block")]
          [Html.element "figure" [("class", "content-editor__custom-block table")]
            [Html.element "table" []
              [Html.element "tr" []
                [Html.element "td" [] [Html.text "a"],
                 Html.element "td" [] [Html.text "b"]],
               Html.element "tr" [] [Html.element "td" [] [Html.text "c"]]]]]])).1 =
      docSig
        [⟨"link", { url := some "test.com", isExternal := false }⟩,
         ⟨"table", { rows := [["a", "b"], ["c"]] }⟩]
        (collapse
          [{ btype := "unstyled", text := "hi there", entityRanges := [{ key := 0, offset := 3, length := 5 }] },
           { btype := "atomic", text := " ", entityRanges := [{ key := 1, offset := 0, length := 1 }] }]) := by
  refine round_trip TOOLBAR_DEFAULTS
    [⟨"link", { url := some "test.com", isExternal := false }⟩,
     ⟨"table", { rows := [["a", "b"], ["c"]] }⟩]
    [{ btype := "unstyled", text := "hi there", entityRanges := [{ key := 0, offset := 3, length := 5 }] },
     { btype := "atomic", text := " ", entityRanges := [{ key := 1, offset := 0, length := 1 }] }]
    _ (by unfold Config.entityIdsDistinct; decide)
    (by unfold Config.linkClassOk; decide) ?_ (by simp) rfl
  intro b hb
  simp at hb
  rcases hb with hb | hb <;> subst hb
  · left
    refine ⟨rfl, ?_, ?_, ?_⟩
    · intro r hr
      simp at hr
    · intro r hr
      simp at hr
      subst hr
      exact ⟨⟨"link", { url := some "test.com", isExternal := false }⟩, rfl, rfl,
        "test.com", false, rfl⟩
    · intro h
      exact absurd h (by decide)
  · right
    refine ⟨rfl, rfl, rfl, { key := 1, offset := 0, length := 1 }, rfl,
      ⟨"table", { rows := [["a", "b"], ["c"]] }⟩, rfl, ?_⟩
    right; right; right; right
    exact ⟨rfl, [["a", "b"], ["c"]], rfl⟩

/-- C1 counterexample: a document whose single atomic block holds a file
entity carrying a caption does not survive the round trip.  The §4.2 file
markup renders the caption as a `<figcaption>` text node; on re-import
that text node appends to the atomic block's text (`" "` becomes
`" cap"`) and no §4.4 rule recovers the caption field, so both the text
and the entity data of the block change. -/
theorem round_trip_caption_counterexample :
    exportTrees TOOLBAR_DEFAULTS
        [⟨"file", { src := some "s", name := some "n", caption := some "cap" }⟩]
        [{ btype := "atomic", text := " ", entityRanges := [{ key := 0, offset := 0, length := 1 }] }] =
      some [Html.element "figure" [("class", "atomic document-block")]
        [Html.element "figure"
          [("class", "content-editor__custom-block document with-caption")]
          [Html.element "a"
            [("class", "file-name"), ("href", "s"), ("download", "n")]
            [Html.text "n"],
           Html.element "figcaption" [("class", "caption")] [Html.text "cap"]]]] ∧
    docSig (convertFromHTML TOOLBAR_DEFAULTS (cleanList [Html.element "figure" [("class", "atomic document-block")]
        [Html.element "figure"
          [("class", "content-editor__custom-block document with-caption")]
          [Html.element "a"
            [("class", "file-name"), ("href", "s"), ("download", "n")]
            [Html.text "n"],
           Html.element "figcaption" [("class", "caption")] [Html.text "cap"]]]])).2
        (convertFromHTML TOOLBAR_DEFAULTS (cleanList [Html.element "figure" [("class", "atomic document-block")]
        [Html.element "figure"
          [("class", "content-editor__custom-block document with-caption")]
          [Html.element "a"
            [("class", "file-name"), ("href", "s"), ("download", "n")]
            [Html.text "n"],
           Html.element "figcaption" [("class", "caption")] [Html.text "cap"]]]])).1 ≠
      docSig [⟨"file", { src := some "s", name := some "n", caption := some "cap" }⟩]
        (collapse [{ btype := "atomic", text := " ", entityRanges := [{ key := 0, offset := 0, length := 1 }] }]) := by
  constructor
  · rfl
  · decide

end TextEditor
